import Mathlib

/-!
# Verification of the koinly2irpf report processor

Shallow embedding of the core logic of `src/koinly2irpf/processor.py` and
`src/koinly2irpf/fix_binance_smart_chain.py`: the numeric/locale normalizer,
the entity classifier (exchange / blockchain identification and the BSC fix
pass), the year-end balance parser, the wallet-detail line scanner, the
proportional cost attributor, the disclosure text generator and the CSV
exporter.

Conventions of the embedding:
* Python `float` values are modelled as exact rationals (`ℚ`); every
  division site of the source is translated literally, and `ℚ` division is
  exact where the source guards divisors away from zero.
* Python strings are modelled as Lean `String` / `List Char`.  All inputs of
  interest are ASCII, so `Char.toLower`/`Char.toUpper` model `str.lower()` /
  `str.upper()`.
* Fallible conversions (`float(...)`) are modelled with `Option`.
* Regular-expression matching is modelled by a small fuelled backtracking
  engine (leftmost, left-alternative-first, greedy/lazy repetition), the
  same match discipline as CPython's `re`; each pattern of the source is
  transliterated into an explicit syntax tree.
-/

namespace Koinly

/-- Characters treated as whitespace by Python's `str.strip()` / `\s`
(ASCII fragment). -/
def isPySpace (c : Char) : Bool :=
  c = ' ' || c = '\t' || c = '\n' || c = '\r' || c = '\x0b' || c = '\x0c'

/-- `str.strip()` on a character list. -/
def pyStripL (l : List Char) : List Char :=
  ((l.dropWhile isPySpace).reverse.dropWhile isPySpace).reverse

/-- `str.strip()` on a string. -/
def pyStrip (s : String) : String := ⟨pyStripL s.data⟩

/-- `str.lower()` (ASCII). -/
def pyLower (s : String) : String := ⟨s.data.map Char.toLower⟩

/-- `str.upper()` (ASCII). -/
def pyUpper (s : String) : String := ⟨s.data.map Char.toUpper⟩

/-- `str.rfind(c)`: highest index of `c` in the list, `-1` when absent. -/
def rfindC (c : Char) : List Char → Int
  | [] => -1
  | x :: xs =>
    let r := rfindC c xs
    if r ≥ 0 then r + 1
    else if x = c then 0 else -1

/-- Prefix test on character lists. -/
def isPrefixL : List Char → List Char → Bool
  | [], _ => true
  | _ :: _, [] => false
  | a :: as, b :: bs => a = b && isPrefixL as bs

/-- `str.replace(pat, rep)` (non-overlapping, left to right); the fuel is
the input length, which suffices for the non-empty patterns used. -/
def pyReplaceAux (pat rep : List Char) : Nat → List Char → List Char
  | 0, l => l
  | fuel + 1, l =>
    match l with
    | [] => []
    | c :: cs =>
      if pat ≠ [] ∧ isPrefixL pat l then rep ++ pyReplaceAux pat rep fuel (l.drop pat.length)
      else c :: pyReplaceAux pat rep fuel cs

/-- `str.replace` on strings. -/
def pyReplace (s pat rep : String) : String :=
  ⟨pyReplaceAux pat.data rep.data s.data.length s.data⟩

/-- `str.split(sep)` (non-overlapping, left to right). -/
def pySplitL (sep : List Char) : Nat → List Char → List (List Char)
  | 0, l => [l]
  | fuel + 1, l =>
    match l with
    | [] => [[]]
    | c :: cs =>
      if sep ≠ [] ∧ isPrefixL sep l then [] :: pySplitL sep fuel (l.drop sep.length)
      else
        match pySplitL sep fuel cs with
        | [] => [[c]]
        | seg :: rest => (c :: seg) :: rest

/-- `str.split(sep)` on strings. -/
def pySplitOn (s sep : String) : List String :=
  (pySplitL sep.data s.data.length s.data).map String.mk

/-- `str.startswith(pre)`. -/
def pyStartswith (s pre : String) : Bool := isPrefixL pre.data s.data

/-! ## Numeric/locale normalizer: `KoinlyProcessor._clean_numeric_str` -/

/-- The currency glyphs removed by `re.sub(r"[R$€£¥]", "", num_str)`. -/
def currencyGlyphs : List Char := ['R', '$', '€', '£', '¥']

/-- `cleaned.split('.')` followed by `parts[0] + '.' + "".join(parts[1:])`:
keeps the first `.` and deletes every later one. -/
def collapseDots (l : List Char) : List Char :=
  (l.takeWhile (· ≠ '.')) ++ '.' :: ((l.dropWhile (· ≠ '.')).drop 1).filter (· ≠ '.')

/-- `KoinlyProcessor._clean_numeric_str` (processor.py lines 77-105) on a
character list.  The `num_str is None` guard is outside the model (inputs
are strings). -/
def cleanNumericL (l : List Char) (removeCurrency : Bool) : List Char :=
  -- re.sub(r"[R$€£¥]", "", num_str)  (when remove_currency)
  let l := if removeCurrency then l.filter (fun c => ¬ currencyGlyphs.contains c) else l
  -- num_str.strip().replace(' ', '')
  let l := (pyStripL l).filter (· ≠ ' ')
  -- decimal-separator disambiguation
  let cleaned :=
    if l.contains ',' ∧ l.contains '.' then
      if rfindC '.' l > rfindC ',' l then
        l.filter (· ≠ ',')
      else
        ((l.filter (· ≠ '.')).map (fun c => if c = ',' then '.' else c))
    else if l.contains ',' then
      l.map (fun c => if c = ',' then '.' else c)
    else l
  -- re.sub(r"[^\d.-]", "", cleaned)
  let cleaned := cleaned.filter (fun c => c.isDigit ∨ c = '.' ∨ c = '-')
  -- collapse extra dots
  let cleaned := if cleaned.count '.' > 1 then collapseDots cleaned else cleaned
  -- fix stray '-' signs: if '-' occurs past position 0, drop all '-' and
  -- re-attach a single leading one when the string started with '-'
  let cleaned :=
    if (cleaned.drop 1).contains '-' then
      let isNeg := cleaned.head? = some '-'
      let r := cleaned.filter (· ≠ '-')
      if isNeg then '-' :: r else r
    else cleaned
  if cleaned = [] ∨ cleaned = ['.'] ∨ cleaned = ['-'] then ['0'] else cleaned

/-- `KoinlyProcessor._clean_numeric_str` on strings. -/
def clean_numeric_str (s : String) (removeCurrency : Bool := true) : String :=
  ⟨cleanNumericL s.data removeCurrency⟩

/-! ## Model of CPython `float(str)` on decimal literals

`float` accepts (after stripping whitespace) `[sign] (d+ [. d*] | . d+)
[(e|E) [sign] d+]` plus infinities/NaN spellings; the latter are irrelevant
to the normalizer's output alphabet (digits, `.`, `-`) and are omitted.
The value model is the exact rational of the decimal literal. -/

/-- Digit-list to natural value, most significant first. -/
def digitsValN (l : List Char) : ℕ :=
  l.foldl (fun acc c => acc * 10 + (c.toNat - '0'.toNat)) 0

/-- Parse the mantissa `d+ [. d*] | . d+`; returns the value and remaining
characters, or `none` when no digit is present where required. -/
def pyFloatMantissa (l : List Char) : Option (ℚ × List Char) :=
  let intDigits := l.takeWhile Char.isDigit
  let rest := l.dropWhile Char.isDigit
  match rest with
  | '.' :: r2 =>
    let fracDigits := r2.takeWhile Char.isDigit
    let r3 := r2.dropWhile Char.isDigit
    if intDigits = [] ∧ fracDigits = [] then none
    else some ((digitsValN intDigits : ℚ) +
      mkRat (digitsValN fracDigits) (10 ^ fracDigits.length), r3)
  | _ =>
    if intDigits = [] then none
    else some ((digitsValN intDigits : ℚ), rest)

/-- Parse the optional exponent `[(e|E) [sign] d+]`. -/
def pyFloatExp (l : List Char) : Option (Int × List Char) :=
  match l with
  | 'e' :: r | 'E' :: r =>
    let (sign, r2) : Int × List Char :=
      match r with
      | '-' :: r' => (-1, r')
      | '+' :: r' => (1, r')
      | _ => (1, r)
    let ds := r2.takeWhile Char.isDigit
    let r3 := r2.dropWhile Char.isDigit
    if ds = [] then none else some (sign * (digitsValN ds : ℤ), r3)
  | _ => some (0, l)

/-- CPython `float(s)` on finite decimal literals: `some` value when the
string is accepted, `none` when `float` would raise `ValueError`.  The
power of ten of the exponent is expressed through `Nat` powers and
`mkRat` (identical to `m · 10^e`). -/
def pyFloat (s : String) : Option ℚ :=
  let l := pyStripL s.data
  let (sign, l) : ℚ × List Char :=
    match l with
    | '-' :: r => (-1, r)
    | '+' :: r => (1, r)
    | _ => (1, l)
  match pyFloatMantissa l with
  | none => none
  | some (m, rest) =>
    match pyFloatExp rest with
    | none => none
    | some (e, rest2) =>
      if rest2 = [] then
        let mag : ℚ := if 0 ≤ e then ((10 ^ e.toNat : ℕ) : ℚ) else mkRat 1 (10 ^ (-e).toNat)
        some (sign * m * mag)
      else none

/-- Whether `float(s)` succeeds. -/
def pyFloatAccepts (s : String) : Bool := (pyFloat s).isSome

/-! ## Data model

Dictionaries produced by the parsers are modelled as structures; a key that
may be absent or `None` in the source becomes an `Option` field (`none` =
absent/`None`, which the source only ever inspects through `.get`/`is not
None`/truthiness). -/

/-- One asset row of a wallet (`asset_data` dict built in
`_parse_wallet_details_section`, later extended with `cost` and
`irpf_description`). -/
structure AssetEntry where
  name : String
  amount : ℚ
  amount_raw : Option String := none
  price : Option ℚ := none
  value : ℚ
  cost_reported : Option ℚ := none
  cost : Option ℚ := none
  irpf_description : String := ""
  deriving Repr, DecidableEq, Inhabited

/-- One wallet group (`wallet_details_temp` entry dict). -/
structure WalletDetail where
  wallet_name : String
  wallet_name_raw : String
  blockchain : String
  exchange : String
  address : Option String := none
  assets : List AssetEntry := []
  values : List ℚ := []
  is_new_format : Bool := false
  total_wallet_cost : Option ℚ := none
  total_value : ℚ := 0
  proportion : Option ℚ := none
  cost : Option ℚ := none
  deriving Repr, DecidableEq, Inhabited

/-- One record of the End-of-Year balances table
(`end_of_year_items` entry dict). -/
structure EoyItem where
  asset : String
  amount : ℚ
  price : ℚ
  value : ℚ
  cost : ℚ
  deriving Repr, DecidableEq, Inhabited

/-! ## Entity classifier -/

/-- Contiguous-substring test on character lists. -/
def pyInL (sub : List Char) : List Char → Bool
  | [] => sub.isEmpty
  | c :: cs => isPrefixL sub (c :: cs) || pyInL sub cs

/-- Python `sub in hay` on strings. -/
def pyIn (sub hay : String) : Bool := pyInL sub.data hay.data

/-- `KoinlyProcessor._identify_blockchain` (processor.py lines 984-997). -/
def identify_blockchain (wallet_name : String) : String :=
  let w := pyLower wallet_name
  if pyIn "btc" w ∨ pyIn "bitcoin" w then "BTC"
  else if pyIn "eth" w ∨ pyIn "ethereum" w then "ETH"
  else if pyIn "bsc" w ∨ pyIn "binance smart chain" w then "BSC"
  else if pyIn "sol" w ∨ pyIn "solana" w then "SOL"
  else "NONE"

/-- The `exchanges` dict of `KoinlyProcessor._identify_exchange`
(processor.py lines 1003-1175) in source order.  The source dict literal
repeats a few keys (`liquid`, `bitflyer`, `cointrade`, and their domains)
with identical values, so first-match lookup over this list coincides with
insertion-ordered dict iteration. -/
def exchangesTable : List (String × String) := [
  ("binance", "Binance"), ("binance.com", "Binance"),
  ("coinbase", "Coinbase"), ("coinbase.com", "Coinbase"),
  ("kraken", "Kraken"), ("kraken.com", "Kraken"),
  ("bitfinex", "Bitfinex"), ("bitfinex.com", "Bitfinex"),
  ("kucoin", "KuCoin"), ("kucoin.com", "KuCoin"),
  ("ftx", "FTX"), ("ftx.com", "FTX"),
  ("bybit", "Bybit"), ("bybit.com", "Bybit"),
  ("okx", "OKX"), ("okx.com", "OKX"), ("okex", "OKX"), ("okex.com", "OKX"),
  ("gate.io", "Gate.io"), ("gateio", "Gate.io"),
  ("mexc", "MEXC"), ("mexc.com", "MEXC"),
  ("bitget", "Bitget"), ("bitget.com", "Bitget"),
  ("bingx", "BingX"), ("bingx.com", "BingX"),
  ("bitstamp", "Bitstamp"), ("bitstamp.net", "Bitstamp"),
  ("huobi", "Huobi"), ("huobi.com", "Huobi"),
  ("crypto.com", "Crypto.com"), ("crypto com", "Crypto.com"),
  ("deribit", "Deribit"), ("deribit.com", "Deribit"),
  ("poloniex", "Poloniex"), ("poloniex.com", "Poloniex"),
  ("bitmex", "BitMEX"), ("bitmex.com", "BitMEX"),
  ("bitflyer", "BitFlyer"), ("bitflyer.com", "BitFlyer"),
  ("bittrex", "Bittrex"), ("bittrex.com", "Bittrex"),
  ("hitbtc", "HitBTC"), ("hitbtc.com", "HitBTC"),
  ("upbit", "Upbit"), ("upbit.com", "Upbit"),
  ("liquid", "Liquid"), ("liquid.com", "Liquid"),
  ("probit", "ProBit"), ("probit.com", "ProBit"),
  ("bitso", "Bitso"), ("bitso.com", "Bitso"),
  ("bitmart", "BitMart"), ("bitmart.com", "BitMart"),
  ("coinex", "CoinEx"), ("coinex.com", "CoinEx"),
  ("phemex", "Phemex"), ("phemex.com", "Phemex"),
  ("latoken", "LATOKEN"), ("latoken.com", "LATOKEN"),
  ("whitebit", "WhiteBIT"), ("whitebit.com", "WhiteBIT"),
  ("lbank", "LBank"), ("lbank.info", "LBank"),
  ("bitrue", "Bitrue"), ("bitrue.com", "Bitrue"),
  ("coinone", "Coinone"), ("coinone.co.kr", "Coinone"),
  ("zb.com", "ZB.com"), ("zb", "ZB.com"),
  ("bkex", "BKEX"), ("bkex.com", "BKEX"),
  ("mxc", "MEXC"), ("mxc.com", "MEXC"),
  ("ascendex", "AscendEX"), ("ascendex.com", "AscendEX"),
  ("hotbit", "Hotbit"), ("hotbit.io", "Hotbit"),
  ("coincheck", "Coincheck"), ("coincheck.com", "Coincheck"),
  ("bitbank", "Bitbank"), ("bitbank.cc", "Bitbank"),
  ("liquid", "Liquid"), ("liquid.com", "Liquid"),
  ("btcmarkets", "BTC Markets"), ("btcmarkets.net", "BTC Markets"),
  ("bitflyer", "BitFlyer"), ("bitflyer.com", "BitFlyer"),
  ("bitpanda", "Bitpanda"), ("bitpanda.com", "Bitpanda"),
  ("kriptomat", "Kriptomat"), ("kriptomat.io", "Kriptomat"),
  ("paybis", "Paybis"), ("paybis.com", "Paybis"),
  ("bitwala", "Bitwala"), ("bitwala.com", "Bitwala"),
  ("blockchain.com", "Blockchain.com"), ("blockchain", "Blockchain.com"),
  ("mercado bitcoin", "Mercado Bitcoin"), ("mercadobitcoin", "Mercado Bitcoin"),
  ("mercadobitcoin.com.br", "Mercado Bitcoin"),
  ("mb", "Mercado Bitcoin"), ("mercado", "Mercado Bitcoin"),
  ("btg", "BTG Pactual"), ("btg pactual", "BTG Pactual"), ("btgdigital", "BTG Pactual"),
  ("foxbit", "Foxbit"), ("foxbit.com.br", "Foxbit"),
  ("novadax", "NovaDAX"), ("novadax.com", "NovaDAX"),
  ("coinext", "Coinext"), ("coinext.com.br", "Coinext"),
  ("bitcointrade", "BitcoinTrade"), ("bitcointrade.com.br", "BitcoinTrade"),
  ("bitpreco", "Bitpreço"), ("bitpreco.com", "Bitpreço"),
  ("flowbtc", "FlowBTC"), ("flowbtc.com.br", "FlowBTC"),
  ("ripio", "Ripio"), ("ripio.com", "Ripio"), ("ripio.com.br", "Ripio"),
  ("brasil bitcoin", "Brasil Bitcoin"), ("brasilbitcoin", "Brasil Bitcoin"),
  ("brasilbitcoin.com.br", "Brasil Bitcoin"),
  ("coinbene", "Coinbene"), ("coinbene.com", "Coinbene"), ("coinbene.com.br", "Coinbene"),
  ("bitblue", "BitBlue"), ("bitblue.com.br", "BitBlue"),
  ("bitcointoyou", "BitcoinToYou"), ("bitcointoyou.com", "BitcoinToYou"),
  ("bitcointoyou.com.br", "BitcoinToYou"),
  ("alter", "Alter"), ("alterbank", "Alter"), ("alterbank.com.br", "Alter"),
  ("pagcripto", "PagCripto"), ("pagcripto.com.br", "PagCripto"),
  ("coincloud", "CoinCloud"), ("coincloud.com.br", "CoinCloud"), ("coincloud.com", "CoinCloud"),
  ("bitrecife", "BitRecife"), ("bitrecife.com.br", "BitRecife"),
  ("bitnuvem", "Bitnuvem"), ("bitnuvem.com.br", "Bitnuvem"),
  ("cointrade", "CoinTrade"), ("cointrade.com.br", "CoinTrade"), ("cointrade.cx", "CoinTrade"),
  ("coinx", "CoinX"), ("coinx.com.br", "CoinX"), ("coinx.cx", "CoinX"),
  ("bitvalemais", "BitValeMais"), ("bitvalemais.com.br", "BitValeMais"),
  ("bitvalemais.com", "BitValeMais"),
  ("bitinvest", "BitInvest"), ("bitinvest.com.br", "BitInvest"), ("bitinvest.com", "BitInvest"),
  ("coinwise", "Coinwise"), ("coinwise.com.br", "Coinwise"), ("coinwise.com", "Coinwise"),
  ("coinshub", "CoinsHub"), ("coinshub.com.br", "CoinsHub"), ("coinshub.com", "CoinsHub"),
  ("coinbr", "CoinBR"), ("coinbr.net", "CoinBR"), ("coinbr.com", "CoinBR"),
  ("coinbr.com.br", "CoinBR"),
  ("cointrade", "CoinTrade"), ("cointrade.com.br", "CoinTrade"), ("cointrade.cx", "CoinTrade")]

/-- `KoinlyProcessor._identify_exchange` (processor.py lines 999-1179):
lower-case the title, return the value of the first table key contained in
it, else `"NONE"`. -/
def identify_exchange (wallet_name : String) : String :=
  let w := pyLower wallet_name
  match exchangesTable.find? (fun kv => pyIn kv.1 w) with
  | some kv => kv.2
  | none => "NONE"

/-- Anchored attempt of `\s*\([^)]*\)` at the head of the list: greedy
whitespace, an opening parenthesis, the (unique) shortest non-`)` run, a
closing parenthesis; returns the remainder on success. -/
def parenMatchAt (l : List Char) : Option (List Char) :=
  match l.dropWhile isPySpace with
  | c :: r2 =>
    if c = '(' then
      match r2.dropWhile (· ≠ ')') with
      | c2 :: r3 => if c2 = ')' then some r3 else none
      | [] => none
    else none
  | [] => none

/-- `re.sub(r'\s*\([^)]*\)', '', s)`: delete each leftmost non-overlapping
match, scanning left to right (fuelled; each match consumes at least two
characters, so `fuel = l.length` suffices). -/
def subParensAux : Nat → List Char → List Char
  | 0, l => l
  | fuel + 1, l =>
    match l with
    | [] => []
    | c :: cs =>
      match parenMatchAt (c :: cs) with
      | some rest => subParensAux fuel rest
      | none => c :: subParensAux fuel cs

/-- `re.sub(r'\s*\([^)]*\)', '', s)` on a character list. -/
def subParens (l : List Char) : List Char := subParensAux l.length l

/-- `KoinlyProcessor._clean_wallet_name` (processor.py lines 1181-1188). -/
def clean_wallet_name (s : String) : String :=
  pyStrip ⟨subParens (pyStrip s).data⟩

/-! ## The BSC fix pass (`fix_binance_smart_chain.py`) -/

/-- BSC name variations detected by `process_wallet_details_for_bsc`. -/
def bsc_names : List String :=
  ["binance smart chain", "bsc", "bnb chain", "bnb smart chain"]

/-- Per-wallet body of `process_wallet_details_for_bsc`
(fix_binance_smart_chain.py lines 37-66). -/
def fixBscDetail (detail : WalletDetail) : WalletDetail :=
  let wallet_name_raw := pyLower detail.wallet_name_raw
  let is_bsc := bsc_names.any (fun n => pyIn n wallet_name_raw)
  let is_bsc := is_bsc ∨
    (pyIn "0x" wallet_name_raw ∧ pyIn " - " wallet_name_raw ∧
      (pySplitOn wallet_name_raw " - ").any (fun part => pyStartswith (pyStrip part) "0x"))
  if is_bsc ∧ detail.blockchain = "Exchange" then
    { detail with blockchain := "BSC" }
  else detail

/-- `process_wallet_details_for_bsc` over the wallet list. -/
def process_wallet_details_for_bsc (wallet_details : List WalletDetail) :
    List WalletDetail :=
  wallet_details.map fixBscDetail

/-! ## A backtracking regular-expression engine

CPython's `re` uses a backtracking matcher: alternatives are tried left to
right, repetitions greedily (or lazily for `*?`/`+?`), and the first
complete match wins.  `mrun` implements exactly that discipline in
continuation-passing style.  A fuel parameter makes the recursion
structural; `reFuel` comfortably exceeds the recursion depth any of the
transliterated patterns can reach on a given input. -/

/-- Regular-expression syntax trees.  `cls` is a character class, `star b`
a repetition (greedy when `b`), `group i` a capturing group, `nla` a
negative lookahead. -/
inductive RE where
  | eps : RE
  | cls : (Char → Bool) → RE
  | seq : RE → RE → RE
  | alt : RE → RE → RE
  | star : Bool → RE → RE
  | group : Nat → RE → RE
  | nla : RE → RE

/-- Capture store: later entries for the same index shadow earlier ones,
matching "last successful capture wins". -/
abbrev Caps := List (Nat × List Char)

/-- `match.group(i)` (participating groups only). -/
def getCap (g : Caps) (i : Nat) : Option (List Char) :=
  ((List.find? (fun p => p.1 = i)) g).map (·.2)

/-- The backtracking matcher.  `k` is the continuation receiving the
remaining input and captures; the result carries the remaining input after
the full match. -/
def mrun : Nat → RE → List Char → Caps → (List Char → Caps → Option (List Char × Caps)) →
    Option (List Char × Caps)
  | 0, _, _, _, _ => none
  | fuel + 1, r, s, g, k =>
    match r with
    | .eps => k s g
    | .cls p =>
      match s with
      | c :: rest => if p c then k rest g else none
      | [] => none
    | .seq a b => mrun fuel a s g (fun s1 g1 => mrun fuel b s1 g1 k)
    | .alt a b =>
      match mrun fuel a s g k with
      | some res => some res
      | none => mrun fuel b s g k
    | .star greedy a =>
      if greedy then
        match mrun fuel a s g
          (fun s1 g1 =>
            if s1.length < s.length then mrun fuel (.star true a) s1 g1 k else none) with
        | some res => some res
        | none => k s g
      else
        match k s g with
        | some res => some res
        | none =>
          mrun fuel a s g
            (fun s1 g1 =>
              if s1.length < s.length then mrun fuel (.star false a) s1 g1 k else none)
    | .group i a =>
      mrun fuel a s g (fun s1 g1 => k s1 ((i, s.take (s.length - s1.length)) :: g1))
    | .nla a =>
      match mrun fuel a s g (fun s2 g2 => some (s2, g2)) with
      | some _ => none
      | none => k s g

/-- Syntactic size of a pattern, used for the fuel bound. -/
def reSize : RE → Nat
  | .eps => 1
  | .cls _ => 1
  | .seq a b => reSize a + reSize b + 1
  | .alt a b => reSize a + reSize b + 1
  | .star _ a => reSize a + 1
  | .group _ a => reSize a + 1
  | .nla a => reSize a + 1

/-- Fuel bound: generous multiple of input length times pattern size. -/
def reFuel (r : RE) (s : List Char) : Nat :=
  4 * (s.length + 2) * (reSize r + 2)

/-- `pattern.match(s)` (anchored at the start): captures and number of
consumed characters. -/
def rmatchL (r : RE) (l : List Char) : Option (Caps × Nat) :=
  (mrun (reFuel r l) r l [] (fun rem g => some (rem, g))).map
    (fun res => (res.2, l.length - res.1.length))

/-- `pattern.match(s)` on a string. -/
def rmatch (r : RE) (s : String) : Option (Caps × Nat) := rmatchL r s.data

/-- `pattern.search(s)`: leftmost match; returns `(start, end, captures)`. -/
def rsearchAux (r : RE) : Nat → List Char → Option (Nat × Nat × Caps)
  | i, l =>
    match rmatchL r l with
    | some (g, n) => some (i, i + n, g)
    | none =>
      match l with
      | [] => none
      | _ :: t => rsearchAux r (i + 1) t

/-- `pattern.search(s)` on a list. -/
def rsearchL (r : RE) (l : List Char) : Option (Nat × Nat × Caps) := rsearchAux r 0 l

/-- `pattern.search(s, re.MULTILINE)` for patterns starting with `^`:
leftmost line-start position whose suffix matches. -/
def rsearchMLAux (r : RE) : Nat → Bool → List Char → Option (Nat × Nat × Caps)
  | i, atStart, l =>
    match (if atStart then rmatchL r l else none) with
    | some (g, n) => some (i, i + n, g)
    | none =>
      match l with
      | [] => none
      | c :: t => rsearchMLAux r (i + 1) (c = '\n') t

/-- `pattern.search` with `^`-anchored MULTILINE pattern. -/
def rsearchML (r : RE) (l : List Char) : Option (Nat × Nat × Caps) :=
  rsearchMLAux r 0 true l

/-! ### Pattern-building helpers -/

/-- Literal character. -/
def chrRE (c : Char) : RE := .cls (· = c)

/-- Literal character under `re.IGNORECASE`. -/
def chrI (c : Char) : RE := .cls (fun x => x.toLower = c.toLower)

/-- Literal string. -/
def litRE (s : String) : RE := s.data.foldr (fun c r => .seq (chrRE c) r) .eps

/-- Literal string under `re.IGNORECASE`. -/
def litI (s : String) : RE := s.data.foldr (fun c r => .seq (chrI c) r) .eps

/-- `.` (no DOTALL): any character except a newline. -/
def anyRE : RE := .cls (· ≠ '\n')

/-- `\s`. -/
def wsRE : RE := .cls isPySpace

/-- `\d` (ASCII fragment; all inputs of interest are ASCII). -/
def digitRE : RE := .cls Char.isDigit

/-- `[\d.,]`. -/
def numSepRE : RE := .cls (fun c => c.isDigit || c = '.' || c = ',')

/-- `[()?\d,.-]` (the price/value/cost field class). -/
def priceClsRE : RE :=
  .cls (fun c => c = '(' || c = ')' || c = '?' || c.isDigit || c = ',' || c = '.' || c = '-')

/-- Character class under `re.IGNORECASE`: a character matches when it or
one of its case variants satisfies the base predicate. -/
def iCls (p : Char → Bool) : RE := .cls (fun c => p c || p c.toLower || p c.toUpper)

/-- `[R$€£¥]`. -/
def glyphRE : RE := .cls (currencyGlyphs.contains ·)

/-- Sequence of patterns. -/
def seqs (rs : List RE) : RE := rs.foldr .seq .eps

/-- Alternation, first alternative preferred. -/
def alts : RE → List RE → RE
  | r, [] => r
  | r, r2 :: rest => .alt r (alts r2 rest)

/-- `r*` greedy. -/
def starG (r : RE) : RE := .star true r

/-- `r+` greedy. -/
def plusG (r : RE) : RE := .seq r (.star true r)

/-- `r*?` lazy. -/
def starL (r : RE) : RE := .star false r

/-- `r+?` lazy. -/
def plusL (r : RE) : RE := .seq r (.star false r)

/-- `r?` greedy. -/
def optG (r : RE) : RE := .alt r .eps

/-- `r{n}`. -/
def repN (n : Nat) (r : RE) : RE := seqs (List.replicate n r)

/-- `r{0,n}` greedy. -/
def repUpTo : Nat → RE → RE
  | 0, _ => .eps
  | n + 1, r => .alt (.seq r (repUpTo n r)) .eps

/-- `$` at the true end of input (the scanned lines contain no newline). -/
def eosRE : RE := .nla (.cls (fun _ => true))

/-- `\b` directly after a word character: next character is not a word
character (or input ends). -/
def nonWordNext : RE := .nla (.cls (fun c => c.isAlphanum || c = '_'))

/-! ### The source's compiled patterns, transliterated -/

/-- `[a-fA-F0-9]`. -/
def hexDigitRE : RE :=
  .cls (fun c => c.isDigit || ('a' ≤ c ∧ c ≤ 'f') || ('A' ≤ c ∧ c ≤ 'F'))

/-- `[a-zA-Z0-9]`. -/
def alnumRE : RE := .cls (fun c => c.isAlpha || c.isDigit)

/-- `0x[a-fA-F0-9]{4,}` (IGNORECASE on the `x`). -/
def hexAddrRE : RE :=
  seqs [chrRE '0', chrI 'x', repN 4 hexDigitRE, starG hexDigitRE]

/-- `zpub[a-zA-Z0-9]+` (IGNORECASE). -/
def zpubAddrRE : RE := .seq (litI "zpub") (plusG alnumRE)

/-- Base-58 body class `[a-km-zA-HJ-NP-Z1-9]` under IGNORECASE. -/
def base58RE : RE :=
  iCls (fun c =>
    ('a' ≤ c ∧ c ≤ 'k') || ('m' ≤ c ∧ c ≤ 'z') || ('A' ≤ c ∧ c ≤ 'H') ||
    ('J' ≤ c ∧ c ≤ 'N') || ('P' ≤ c ∧ c ≤ 'Z') || ('1' ≤ c ∧ c ≤ '9'))

/-- `[13bc]` under IGNORECASE. -/
def base58HeadRE : RE := iCls (fun c => c = '1' || c = '3' || c = 'b' || c = 'c')

/-- `[13bc][a-km-zA-HJ-NP-Z1-9]{25,59}`. -/
def base58AddrRE : RE :=
  seqs [base58HeadRE, repN 25 base58RE, repUpTo 34 base58RE]

/-- `self.total_wallet_cost_pattern`:
`^Total cost at \d{2} Dec \d{4}:\s*(R\$[\d.,]+)`, IGNORECASE. -/
def total_wallet_cost_pattern : RE :=
  seqs [litI "Total cost at ", digitRE, digitRE, litI " Dec ", repN 4 digitRE,
    chrRE ':', starG wsRE,
    .group 1 (seqs [chrI 'R', chrRE '$', plusG numSepRE])]

/-- `self.currency_header_pattern`:
`^\s*Currency\s+Amount\s+Price\s+Value\s*$`, IGNORECASE (DOTALL has no
effect: the pattern contains no `.`). -/
def currency_header_pattern : RE :=
  seqs [starG wsRE, litI "Currency", plusG wsRE, litI "Amount", plusG wsRE,
    litI "Price", plusG wsRE, litI "Value", starG wsRE, eosRE]

/-- `self.new_currency_header_pattern`:
`^\s*(?:Asset|Currency)\s+Amount\s+Price\s+Value\s+Cost\s*$`, IGNORECASE. -/
def new_currency_header_pattern : RE :=
  seqs [starG wsRE, .alt (litI "Asset") (litI "Currency"), plusG wsRE,
    litI "Amount", plusG wsRE, litI "Price", plusG wsRE, litI "Value",
    plusG wsRE, litI "Cost", starG wsRE, eosRE]

/-- `(?:[eE][-+]?\d+)?`, the optional exponent tail of amount/price/value
fields. -/
def expTailRE : RE :=
  optG (seqs [.cls (fun c => c = 'e' || c = 'E'), optG (.cls (fun c => c = '-' || c = '+')),
    plusG digitRE])

/-- `(?:R?\$\s*)?`, the optional currency prefix of price/value/cost. -/
def rdollarRE : RE := optG (seqs [optG (chrI 'R'), chrRE '$', starG wsRE])

/-- `currency_data_pattern` (processor.py lines 468-482): the universal
per-asset data-row pattern with groups currency=1, amount=2, price=3,
value=4, cost=5. -/
def currency_data_pattern : RE :=
  seqs [
    .group 1 (plusL anyRE),
    plusG wsRE,
    .group 2 (.seq (plusG numSepRE) expTailRE),
    plusG wsRE,
    rdollarRE,
    .group 3 (.seq (plusG priceClsRE) expTailRE),
    plusG wsRE,
    rdollarRE,
    .group 4 (.seq (plusG priceClsRE) expTailRE),
    optG (seqs [plusG wsRE, rdollarRE, .group 5 (.seq (plusG priceClsRE) expTailRE)]),
    optG (seqs [plusG wsRE, chrRE '@', starG anyRE]),
    starG wsRE, eosRE]

/-- `address_pattern` (processor.py line 463):
`^(?:Wallet address:|Address:)\s+(0x...|zpub...|[13bc]...{25,59}.*)$`,
IGNORECASE. -/
def address_pattern : RE :=
  seqs [.alt (litI "Wallet address:") (litI "Address:"), plusG wsRE,
    .group 1 (alts hexAddrRE [zpubAddrRE, .seq base58AddrRE (starG anyRE)]),
    eosRE]

/-- `total_value_pattern` (processor.py line 464):
`^Total wallet value at`, IGNORECASE. -/
def total_value_pattern : RE := litI "Total wallet value at"

/-- The negative lookahead of the title pattern:
`(?!\s*[A-Z0-9/.-]+\s+[\d.,]+\s+(?:[R$€£¥]|\d))`. -/
def titleNlaRE : RE :=
  seqs [starG wsRE,
    plusG (iCls (fun c => ('A' ≤ c ∧ c ≤ 'Z') || c.isDigit || c = '/' || c = '.' || c = '-')),
    plusG wsRE, plusG numSepRE, plusG wsRE,
    .alt (iCls (currencyGlyphs.contains ·)) digitRE]

/-- The known-name alternation of the title pattern, in source order. -/
def knownNamesRE : RE :=
  alts (litI "Binance") [litI "Coinbase", litI "Kraken", litI "Ledger",
    litI "Trezor", litI "MetaMask", litI "Trust Wallet", litI "Phantom",
    litI "Keplr", litI "Bybit", litI "OKX", litI "KuCoin", litI "Gate.io",
    litI "MEXC", litI "Bitget", litI "BingX", litI "Bitfinex", litI "Huobi",
    litI "Crypto.com", litI "Mercado Bitcoin", litI "Bitso", litI "Foxbit",
    litI "NovaDAX", litI "Coinext", litI "BitcoinTrade"]

/-- `Bitcoin(?:\s*\(BTC\))?`. -/
def bitcoinTitleRE : RE :=
  .seq (litI "Bitcoin") (optG (seqs [starG wsRE, chrRE '(', litI "BTC", chrRE ')']))

/-- `[A-Z][a-zA-Z0-9\s\.\/\(\)-]*?` (IGNORECASE). -/
def generalNameRE : RE :=
  .seq (iCls (fun c => 'A' ≤ c ∧ c ≤ 'Z'))
    (starL (.cls (fun c => c.isAlpha || c.isDigit || isPySpace c || c = '.' || c = '/' ||
      c = '(' || c = ')' || c = '-')))

/-- The network suffix alternation `(BSC|ETH|SOL|BTC|Polygon|...)`. -/
def networkAltRE : RE :=
  alts (litI "BSC") [litI "ETH", litI "SOL", litI "BTC", litI "Polygon",
    litI "Avalanche", litI "Arbitrum", litI "Optimism", litI "Cosmos",
    litI "Near", litI "Injective", litI "Base", litI "Fantom", litI "Tron"]

/-- `koinly_title_pattern` (processor.py lines 449-461), groups: name=1,
network=2, address=3. -/
def koinly_title_pattern : RE :=
  seqs [.nla titleNlaRE,
    .group 1 (alts bitcoinTitleRE [knownNamesRE, generalNameRE]),
    optG (seqs [starG wsRE, chrRE '-', starG wsRE, .group 2 networkAltRE]),
    optG (seqs [starG wsRE, chrRE '-', starG wsRE,
      .group 3 (alts hexAddrRE [zpubAddrRE, base58AddrRE])]),
    starG wsRE, eosRE]

/-- `eoy_pattern` (processor.py lines 341-348), groups: asset=1,
quantity=2, cost=3, value=4, description=5. -/
def eoy_pattern : RE :=
  seqs [.nla (.seq (litI "Total") nonWordNext),
    .group 1 (plusL anyRE),
    plusG wsRE,
    .group 2 (plusG numSepRE),
    plusG wsRE,
    optG (.seq (optG glyphRE) (starG wsRE)),
    .group 3 (seqs [optG (chrRE '-'), optG (chrRE '('), digitRE, starG numSepRE, optG (chrRE ')')]),
    plusG wsRE,
    optG (.seq (optG glyphRE) (starG wsRE)),
    .group 4 (seqs [optG (chrRE '-'), optG (chrRE '('), digitRE, starG numSepRE, optG (chrRE ')')]),
    starG wsRE,
    .group 5 (starG anyRE)]

/-! ## The wallet-detail line scanner
(`KoinlyProcessor._parse_wallet_details_section`, processor.py lines
435-707): a stateful single-pass scan over the lines following the
"Balances per Wallet" marker. -/

/-- Log messages emitted by the scan that matter to the stated properties
(`logging.warning`/`error`/`debug` calls of the loop body). -/
inductive ScanEvent where
  /-- warning, line 536: "Total cost at..." with no current wallet entry. -/
  | totalCostNoWallet (line : String)
  /-- debug, line 592: currency line ignored, no header seen yet. -/
  | currencyIgnoredNoHeader (line : String)
  /-- warning, line 549: wallet context lost, attaching to last wallet. -/
  | currencyLostContext (assetName walletRaw : String)
  /-- error, line 551: currency data with no wallet at all. -/
  | currencyNoWalletCritical (line : String)
  /-- warning, line 590: exception while processing a currency line. -/
  | currencyParseError (line : String)
  /-- debug, line 688: unrecognized line. -/
  | unrecognized (line : String)
  deriving Repr, DecidableEq

/-- The loop state: `wallet_details_temp`, `current_wallet_info`, the
header/format flags and `last_captured_address`, plus the emitted log
events. -/
structure ScanState where
  wallets : List WalletDetail := []
  currentName : String := "Unknown Wallet"
  currentType : String := "Unknown"
  currentAddress : Option String := none
  currentBlockchain : String := "None"
  header_found : Bool := false
  is_new_format : Bool := false
  lastCapturedAddress : Option String := none
  events : List ScanEvent := []
  deriving Repr, DecidableEq

/-- `next((w for w in wallet_details_temp if w['wallet_name_raw'] == name), None)`
as an index. -/
def entryIdx (ws : List WalletDetail) (name : String) : Option Nat :=
  ws.findIdx? (fun w => w.wallet_name_raw = name)

/-- In-place mutation of the `i`-th wallet dict. -/
def updateWalletAt (ws : List WalletDetail) (i : Nat) (f : WalletDetail → WalletDetail) :
    List WalletDetail :=
  match ws[i]? with
  | some w => ws.set i (f w)
  | none => ws

/-- Branch 0 of the scan: a "Total cost at DD Mon YYYY: R$X.XX" line
(lines 527-537).  The source's `float(...)` here is unguarded, but its
argument matches `R\$[\d.,]+`, which always cleans to an accepted literal;
`getD 0` records that conversion cannot fail. -/
def handleTotalCost (st : ScanState) (g : Caps) (line : String) : ScanState :=
  match entryIdx st.wallets st.currentName with
  | some i =>
    let raw_total_cost := String.mk ((getCap g 1).getD [])
    let total_cost_val := (pyFloat (clean_numeric_str raw_total_cost)).getD 0
    let ws := updateWalletAt st.wallets i
      (fun w => { w with total_wallet_cost := some total_cost_val })
    { st with wallets := ws }
  | none => { st with events := .totalCostNoWallet line :: st.events }

/-- The numeric extraction of the currency branch (lines 554-584): builds
the `asset_data` dict and reports whether a cost column was present.
`none` models a `float` conversion raising inside the `try` block. -/
def assetOfCaps (g : Caps) : Option (AssetEntry × Bool) :=
  let value_str := pyReplace (pyReplace (String.mk ((getCap g 4).getD ['0'])) "(" "-") ")" ""
  match pyFloat (clean_numeric_str value_str) with
  | none => none
  | some asset_value =>
    let amount_raw := pyStrip (String.mk ((getCap g 2).getD ['0']))
    match pyFloat (clean_numeric_str amount_raw false) with
    | none => none
    | some asset_amount =>
      let price_str := pyReplace (pyReplace (String.mk ((getCap g 3).getD ['0'])) "(" "-") ")" ""
      match pyFloat (clean_numeric_str price_str) with
      | none => none
      | some asset_price =>
        let currency_name := pyStrip (String.mk ((getCap g 1).getD "Unknown".data))
        let base : AssetEntry :=
          { name := currency_name, amount := asset_amount, amount_raw := some amount_raw,
            price := some asset_price, value := asset_value }
        match getCap g 5 with
        | some rawCost =>
          let cost_str := pyReplace (pyReplace (String.mk rawCost) "(" "-") ")" ""
          match pyFloat (clean_numeric_str cost_str) with
          | none => none
          | some c => some ({ base with cost_reported := some c }, true)
        | none => some (base, false)

/-- Appending `asset_data` to a wallet entry (lines 576-587), including the
new-format promotion when a reported cost is present. -/
def appendAssetTo (w : WalletDetail) (a : AssetEntry) (hasCost : Bool) : WalletDetail :=
  let w := if hasCost ∧ ¬ w.is_new_format then { w with is_new_format := true } else w
  { w with assets := w.assets ++ [a], values := w.values ++ [a.value] }

/-- Branch 1 of the scan: a currency-data line (lines 539-593). -/
def handleCurrencyData (st : ScanState) (g : Caps) (line : String) : ScanState :=
  if st.header_found then
    match entryIdx st.wallets st.currentName with
    | some i =>
      match assetOfCaps g with
      | some (a, hasCost) =>
        let entry := st.wallets.getD i default
        { st with
          wallets := updateWalletAt st.wallets i (fun w => appendAssetTo w a hasCost),
          is_new_format := st.is_new_format ∨ (hasCost ∧ ¬ entry.is_new_format) }
      | none => { st with events := .currencyParseError line :: st.events }
    | none =>
      match st.wallets with
      | [] => { st with events := .currencyNoWalletCritical line :: st.events }
      | _ :: _ =>
        let lastIdx := st.wallets.length - 1
        let entry := st.wallets.getD lastIdx default
        let warnEvt : ScanEvent :=
          .currencyLostContext (String.mk ((getCap g 1).getD [])) entry.wallet_name_raw
        match assetOfCaps g with
        | some (a, hasCost) =>
          { st with
            wallets := updateWalletAt st.wallets lastIdx (fun w => appendAssetTo w a hasCost),
            is_new_format := st.is_new_format ∨ (hasCost ∧ ¬ entry.is_new_format),
            events := warnEvt :: st.events }
        | none => { st with events := .currencyParseError line :: warnEvt :: st.events }
  else { st with events := .currencyIgnoredNoHeader line :: st.events }

/-- Branch 2a: the new (with Cost column) header line (lines 597-606). -/
def handleNewHeader (st : ScanState) : ScanState :=
  let ws :=
    match entryIdx st.wallets st.currentName with
    | some i => updateWalletAt st.wallets i (fun w => { w with is_new_format := true })
    | none => st.wallets
  { st with header_found := true, is_new_format := true, wallets := ws }

/-- Branch 2b: the old (no Cost column) header line (lines 608-617). -/
def handleOldHeader (st : ScanState) : ScanState :=
  let ws :=
    match entryIdx st.wallets st.currentName with
    | some i => updateWalletAt st.wallets i (fun w => { w with is_new_format := false })
    | none => st.wallets
  { st with header_found := true, is_new_format := false, wallets := ws }

/-- Branch 3: a "Wallet address: ..." line (lines 620-624). -/
def handleAddress (st : ScanState) (g : Caps) : ScanState :=
  { st with lastCapturedAddress := some (pyStrip (String.mk ((getCap g 1).getD []))) }

/-- Branch 4: a "Total wallet value at ..." line (lines 627-632). -/
def handleTotalValue (st : ScanState) : ScanState :=
  { st with header_found := false }

/-- Branch 5: a title line (lines 634-685).  Python truthiness of the
optional groups (`None`/empty string falsy) is modelled explicitly. -/
def handleTitle (st : ScanState) (g : Caps) (line : String) : ScanState :=
  let name_part :=
    match getCap g 1 with
    | some l => if l.isEmpty then "Unknown" else pyStrip (String.mk l)
    | none => "Unknown"
  let network_part : Option String :=
    (getCap g 2).bind (fun l => if l.isEmpty then none else some (pyStrip (String.mk l)))
  let address_part : Option String :=
    (getCap g 3).bind (fun l => if l.isEmpty then none else some (pyStrip (String.mk l)))
  let cleaned_name := clean_wallet_name name_part
  if cleaned_name ≠ st.currentName then
    let final_address := match address_part with | some a => some a | none => st.lastCapturedAddress
    let identified_blockchain :=
      match network_part with
      | some n => n
      | none => identify_blockchain line
    let identified_exchange := identify_exchange line
    let w_type :=
      if identified_exchange ≠ "NONE" then "Exchange"
      else if identified_blockchain = "Bitcoin" then "Bitcoin" else "Wallet"
    let st' := { st with
      is_new_format := false, header_found := false,
      currentName := cleaned_name, currentType := w_type,
      currentAddress := final_address, currentBlockchain := identified_blockchain,
      lastCapturedAddress :=
        if final_address = st.lastCapturedAddress then none else st.lastCapturedAddress }
    match st.wallets.findIdx? (fun w => w.wallet_name_raw = line) with
    | none =>
      { st' with wallets := st.wallets ++ [{
          wallet_name := cleaned_name, wallet_name_raw := line,
          blockchain := identified_blockchain, exchange := identified_exchange,
          address := final_address, assets := [], values := [],
          is_new_format := false, total_wallet_cost := none }] }
    | some _ => st'
  else
    if st.lastCapturedAddress.isSome ∧ st.currentAddress = none then
      let ws :=
        match st.wallets.findIdx? (fun w => w.wallet_name_raw = line) with
        | some i =>
          updateWalletAt st.wallets i
            (fun w => if w.address = none then { w with address := st.lastCapturedAddress } else w)
        | none => st.wallets
      { st with
          currentAddress := st.lastCapturedAddress,
          wallets := ws,
          lastCapturedAddress := none }
    else st

/-- One iteration of the scan loop (lines 517-688), with the source's
strict priority order of checks. -/
def scanLine (st : ScanState) (rawLine : String) : ScanState :=
  let line := pyStrip rawLine
  if line = "" then st
  else
    match rmatch total_wallet_cost_pattern line with
    | some (g, _) => handleTotalCost st g line
    | none =>
      match rmatch currency_data_pattern line with
      | some (g, _) => handleCurrencyData st g line
      | none =>
        match rmatch new_currency_header_pattern line with
        | some _ => handleNewHeader st
        | none =>
          match rmatch currency_header_pattern line with
          | some _ => handleOldHeader st
          | none =>
            match rmatch address_pattern line with
            | some (g, _) => handleAddress st g
            | none =>
              match rmatch total_value_pattern line with
              | some _ => handleTotalValue st
              | none =>
                match rmatch koinly_title_pattern line with
                | some (g, _) => handleTitle st g line
                | none => { st with events := .unrecognized line :: st.events }

/-- `_use_sample_wallet_data` (processor.py lines 155-163). -/
def sample_wallet_data : List WalletDetail := [
  { wallet_name := "Binance Exchange", wallet_name_raw := "Binance Exchange",
    blockchain := "NONE", exchange := "Binance",
    assets := [{ name := "BTC", amount := 3/10, value := 12000 },
               { name := "ETH", amount := 3, value := 6000 }],
    values := [12000, 6000], total_value := 18000, proportion := some (6/10) },
  { wallet_name := "Metamask BSC", wallet_name_raw := "Metamask (BSC)",
    blockchain := "BSC", exchange := "NONE",
    assets := [{ name := "BNB", amount := 5, value := 2000 },
               { name := "CAKE", amount := 100, value := 1000 }],
    values := [2000, 1000], total_value := 3000, proportion := some (1/10) },
  { wallet_name := "Hardware Wallet", wallet_name_raw := "Hardware Wallet",
    blockchain := "BTC", exchange := "NONE",
    assets := [{ name := "BTC", amount := 2/10, value := 8000 },
               { name := "ETH", amount := 2, value := 4000 }],
    values := [8000, 4000], total_value := 12000, proportion := some (4/10) }]

/-- The post-scan loop (lines 692-694): set each wallet's `total_value` to
the sum of its `values` and default `proportion` to `1.0` where unset. -/
def finalizeWallets (ws : List WalletDetail) : List WalletDetail :=
  ws.map (fun w =>
    { w with
        total_value := w.values.sum,
        proportion := match w.proportion with | none => some 1 | some p => some p })

/-- The scan over the lines following the "Balances per Wallet" marker
(the marker search itself, lines 488-513, is position bookkeeping over the
extracted text), including the sample-data fallback (lines 697-706). -/
def parse_wallet_details_from_lines (lines : List String) : List WalletDetail :=
  let st := lines.foldl scanLine {}
  let temp := finalizeWallets st.wallets
  if temp.isEmpty then sample_wallet_data else temp

/-! ## The End-of-Year balance parser
(`KoinlyProcessor._parse_eoy_section`, processor.py lines 335-433). -/

/-- `_use_sample_eoy_data` (processor.py lines 145-153). -/
def sample_eoy_data : List EoyItem := [
  { asset := "BTC", amount := 1/2, price := 40000, value := 20000, cost := 15000 },
  { asset := "ETH", amount := 5, price := 2000, value := 10000, cost := 8000 },
  { asset := "ADA", amount := 1000, price := 1/2, value := 500, cost := 300 }]

/-- Anchored test for `\s*\([^)]*\)\s*$` at the head of the list. -/
def parenEndGuard (l : List Char) : Bool :=
  match l.dropWhile isPySpace with
  | '(' :: r2 =>
    match r2.dropWhile (· ≠ ')') with
    | ')' :: r3 => r3.all isPySpace
    | _ => false
  | _ => false

/-- `re.sub(r'\s*\([^)]*\)\s*$', '', s)`: truncate at the leftmost
position where a parenthetical annotation runs to the end of the string. -/
def subParenEnd : List Char → List Char
  | [] => []
  | c :: cs => if parenEndGuard (c :: cs) then [] else c :: subParenEnd cs

/-- Anchored test for `\s*@\s*[R$€£¥].*$` at the head of the list (the
trailing `.*$` always succeeds within a newline-free line). -/
def atCurrencyGuard (l : List Char) : Bool :=
  match l.dropWhile isPySpace with
  | '@' :: r2 =>
    match r2.dropWhile isPySpace with
    | c :: _ => currencyGlyphs.contains c
    | [] => false
  | _ => false

/-- `re.sub(r'\s*@\s*[R$€£¥].*$', '', s)`: truncate at the leftmost
`@ R$... per SYMBOL` price annotation. -/
def subAtCurrencyEnd : List Char → List Char
  | [] => []
  | c :: cs => if atCurrencyGuard (c :: cs) then [] else c :: subAtCurrencyEnd cs

/-- The guarded unit-price computation of the EOY scan (line 412):
`price = (value / quantity) if quantity != 0 else 0`. -/
def eoyPrice (quantity value : ℚ) : ℚ :=
  if quantity ≠ 0 then value / quantity else 0

/-- EOY header shape 1: `Asset\s+Amount\s+Price\s+Value(?:\s+Cost)?`,
IGNORECASE (searched, not anchored). -/
def eoy_header_general : RE :=
  seqs [litI "Asset", plusG wsRE, litI "Amount", plusG wsRE, litI "Price",
    plusG wsRE, litI "Value", optG (.seq (plusG wsRE) (litI "Cost"))]

/-- EOY header shape 2:
`Asset\s+Quantity\s+Cost\s*\(BRL\)\s+Value\s*\(BRL\)\s+Description`. -/
def eoy_header_brl : RE :=
  seqs [litI "Asset", plusG wsRE, litI "Quantity", plusG wsRE, litI "Cost",
    starG wsRE, chrRE '(', litI "BRL", chrRE ')', plusG wsRE, litI "Value",
    starG wsRE, chrRE '(', litI "BRL", chrRE ')', plusG wsRE, litI "Description"]

/-- `^\s*Total\b` (searched with MULTILINE). -/
def eoy_total_line : RE := seqs [starG wsRE, litI "Total", nonWordNext]

/-- The per-line body of the EOY scan loop (processor.py lines 387-427):
`some` item when the line yields a record, `none` when it is skipped
(empty, unmatched, header echo, conversion failure, negative quantity). -/
def eoyScanLineItem (rawLine : String) : Option EoyItem :=
  let line := pyStrip rawLine
  if line = "" then none
  else
    match rmatch eoy_pattern line with
    | none => none
    | some (g, _) =>
      let raw_asset_name := pyStrip (String.mk ((getCap g 1).getD []))
      let asset := pyStrip (String.mk (subParenEnd raw_asset_name.data))
      let asset := pyStrip (String.mk (subAtCurrencyEnd asset.data))
      if asset = "" ∨ pyLower asset = "asset" then none
      else
        let quantity_str := String.mk ((getCap g 2).getD [])
        let cost_str := pyReplace (pyReplace (String.mk ((getCap g 3).getD [])) "(" "-") ")" ""
        let value_str := pyReplace (pyReplace (String.mk ((getCap g 4).getD [])) "(" "-") ")" ""
        match pyFloat (clean_numeric_str quantity_str false),
              pyFloat (clean_numeric_str cost_str),
              pyFloat (clean_numeric_str value_str) with
        | some quantity, some cost, some value =>
          let price := eoyPrice quantity value
          if quantity < 0 then none
          else some { asset := asset, amount := quantity, price := price,
                      value := value, cost := cost }
        | _, _, _ => none

/-- The section-location part of `_parse_eoy_section` (lines 350-384):
locate the title, a header (general shape first, BRL shape second), the
`Total` boundary (falling back to the next section title, then to end of
text), and return the bounded table lines; `none` when the section title
or a header is absent. -/
def eoyBoundedLines (text : String) : Option (List String) :=
  let tl := text.data
  match rsearchL (litI "End of Year Balances") tl with
  | none => none
  | some res =>
    let afterTitle := tl.drop res.2.1
    let headerGeneral := rsearchL eoy_header_general afterTitle
    let header := match headerGeneral with
      | some h => some h
      | none => rsearchL eoy_header_brl afterTitle
    match header with
    | none => none
    | some h =>
      let afterHeader := afterTitle.drop h.2.1
      let boundary :=
        match rsearchML eoy_total_line afterHeader with
        | some t => t.1
        | none =>
          match rsearchL (litI "Balances per Wallet") afterHeader with
          | some b => b.1
          | none => afterHeader.length
      some (pySplitOn (String.mk (pyStripL (afterHeader.take boundary))) "\n")

/-- The records recovered by the EOY scan loop ( `[]` when the section or
header is absent). -/
def eoyScannedItems (text : String) : List EoyItem :=
  match eoyBoundedLines text with
  | none => []
  | some lines => lines.filterMap eoyScanLineItem

/-- `_parse_eoy_section`: scan the bounded section and fall back to the
sample dataset when the title or header is absent or no records were
recovered. -/
def parse_eoy_section (text : String) : List EoyItem :=
  match eoyBoundedLines text with
  | none => sample_eoy_data
  | some lines =>
    let items := lines.filterMap eoyScanLineItem
    if items.isEmpty then sample_eoy_data else items

/-! ## The cost attributor
(`KoinlyProcessor._calculate_proportional_cost`, processor.py lines
709-832). -/

/-- `eoy_assets = {item['asset']: item for item in self.end_of_year_items}`:
dict-comprehension lookup; a duplicated symbol keeps the last item. -/
def eoyLookup (eoy : List EoyItem) (name : String) : Option EoyItem :=
  eoy.reverse.find? (fun e => e.asset = name)

/-- Wallet proportion of the total EOY cost (lines 773-777). -/
def walletProportion (total_cost wallet_cost : ℚ) : ℚ :=
  if total_cost > 0 then wallet_cost / total_cost else 0

/-- Per-asset cost determination (lines 731-758): the reported cost for
new-format wallets, else the EOY unit cost times the held amount, else
`None`. -/
def assetCost (eoy : List EoyItem) (w : WalletDetail) (a : AssetEntry) : Option ℚ :=
  if w.is_new_format ∧ a.cost_reported.isSome then a.cost_reported
  else
    match eoyLookup eoy a.name with
    | some e =>
      if e.amount > 0 then
        let unit_cost := e.cost / e.amount
        some (unit_cost * a.amount)
      else none
    | none => none

/-- Main branch per-wallet processing (EOY present with positive total
value, lines 722-778). -/
def walletCostMain (eoy : List EoyItem) (total_cost : ℚ) (w : WalletDetail) : WalletDetail :=
  if w.assets.isEmpty then { w with cost := some 0, proportion := some 0 }
  else
    let assets' := w.assets.map (fun a => { a with cost := assetCost eoy w a })
    let wallet_cost := (assets'.filterMap (·.cost)).sum
    { w with
        assets := assets',
        cost := some wallet_cost,
        proportion := some (walletProportion total_cost wallet_cost) }

/-- Degenerate branch: EOY present but total value non-positive (lines
779-804).  An empty wallet gets `cost = 0` and — because of the `continue`
— keeps its previous `proportion`. -/
def walletCostNoEoyValue (w : WalletDetail) : WalletDetail :=
  if w.assets.isEmpty then { w with cost := some 0 }
  else if w.is_new_format then
    let assets' := w.assets.map (fun a => { a with cost := a.cost_reported })
    let wallet_cost := (assets'.filterMap (·.cost)).sum
    { w with assets := assets', cost := some wallet_cost, proportion := some 0 }
  else
    { w with
        assets := w.assets.map (fun a => { a with cost := none }),
        cost := some 0, proportion := some 0 }

/-- Branch with no EOY items at all (lines 805-830). -/
def walletCostNoEoyItems (w : WalletDetail) : WalletDetail :=
  if w.assets.isEmpty then { w with cost := some 0, proportion := some 0 }
  else if w.is_new_format then
    let assets' := w.assets.map (fun a => { a with cost := a.cost_reported })
    let wallet_cost := (assets'.filterMap (·.cost)).sum
    { w with assets := assets', cost := some wallet_cost, proportion := some 0 }
  else
    { w with
        assets := w.assets.map (fun a => { a with cost := none }),
        cost := some 0, proportion := some 0 }

/-- `_calculate_proportional_cost`. -/
def calculate_proportional_cost (eoy : List EoyItem) (wallets : List WalletDetail) :
    List WalletDetail :=
  if ¬ eoy.isEmpty then
    let total_value := (eoy.map (·.value)).sum
    let total_cost := (eoy.map (·.cost)).sum
    if total_value > 0 then wallets.map (walletCostMain eoy total_cost)
    else wallets.map walletCostNoEoyValue
  else wallets.map walletCostNoEoyItems

/-! ## Division-checked variants

Each division site of the parser and attributor, with `a / b` replaced by
a checked division that faults (`none`, modelling `ZeroDivisionError`) on
a zero divisor.  The theorems below show the checked variants never
fault and agree with the direct translations. -/

/-- Division that faults on a zero divisor. -/
def divChecked (a b : ℚ) : Option ℚ := if b = 0 then none else some (a / b)

/-- `eoyPrice` with checked division. -/
def eoyPriceChecked (quantity value : ℚ) : Option ℚ :=
  if quantity ≠ 0 then divChecked value quantity else some 0

/-- `assetCost` with checked division (`none` = fault; the inner option is
the attributed cost). -/
def assetCostChecked (eoy : List EoyItem) (w : WalletDetail) (a : AssetEntry) :
    Option (Option ℚ) :=
  if w.is_new_format ∧ a.cost_reported.isSome then some a.cost_reported
  else
    match eoyLookup eoy a.name with
    | some e =>
      if e.amount > 0 then
        (divChecked e.cost e.amount).map (fun unit_cost => some (unit_cost * a.amount))
      else some none
    | none => some none

/-- `walletProportion` with checked division. -/
def walletProportionChecked (total_cost wallet_cost : ℚ) : Option ℚ :=
  if total_cost > 0 then divChecked wallet_cost total_cost else some 0

/-! ## Decimal rendering helpers -/

/-- The character of one decimal digit (arguments are always below ten). -/
def digitCharM (n : Nat) : Char :=
  if n = 0 then '0' else if n = 1 then '1' else if n = 2 then '2' else if n = 3 then '3'
  else if n = 4 then '4' else if n = 5 then '5' else if n = 6 then '6' else if n = 7 then '7'
  else if n = 8 then '8' else '9'

/-- Decimal digits of a natural number, most significant first (fuelled;
`fuel = n` always suffices since `n / 10 < n` for `n ≥ 10`). -/
def natDigitsAux : Nat → Nat → List Char
  | 0, n => [digitCharM n]
  | fuel + 1, n =>
    if n < 10 then [digitCharM n]
    else natDigitsAux fuel (n / 10) ++ [digitCharM (n % 10)]

/-- Decimal digits of a natural number, most significant first. -/
def natDigits (n : Nat) : List Char := natDigitsAux n n

/-- Decimal string of a natural number. -/
def natDecimalStr (n : Nat) : String := String.mk (natDigits n)

/-- Multiplicity of a factor `p > 1` in `n` (0 for `n = 0`), fuelled. -/
def pMultAux (p : Nat) : Nat → Nat → Nat
  | 0, _ => 0
  | fuel + 1, n =>
    if 1 < p ∧ n ≠ 0 ∧ n % p = 0 then pMultAux p fuel (n / p) + 1 else 0

/-- Multiplicity of a factor `p > 1` in `n`. -/
def pMult (p : Nat) (n : Nat) : Nat := pMultAux p n n

/-- Plain (non-scientific) decimal rendering of a rational whose
denominator is of the form `2^a * 5^b` — the model of rendering a parsed
decimal amount back to text (`format(Decimal(str(x)), 'f')` /
`str(float)`; the model renders the canonical decimal expansion, without
Python's trailing `.0` on integral floats).  Rationals outside that form
cannot arise from parsed data; they render as a fraction. -/
def ratToDecString (q : ℚ) : String :=
  let sign := if q < 0 then "-" else ""
  let n := q.num.natAbs
  let d := q.den
  let k := max (pMult 2 d) (pMult 5 d)
  if d * (10 ^ k / d) = 10 ^ k then
    let scaled := n * (10 ^ k / d)
    if k = 0 then sign ++ natDecimalStr scaled
    else
      let ip := scaled / 10 ^ k
      let fp := scaled % 10 ^ k
      let fpStr := natDecimalStr fp
      let fpPad := String.mk (List.replicate (k - fpStr.length) '0') ++ fpStr
      sign ++ natDecimalStr ip ++ "." ++ fpPad
  else sign ++ natDecimalStr n ++ "/" ++ natDecimalStr d

/-- Round to the nearest integer, ties to even (the rounding of
`f"{x:.2f}"` on the model's exact rationals). -/
def roundHalfEven (q : ℚ) : ℤ :=
  let f := ⌊q⌋
  let r := q - f
  if r < 1/2 then f
  else if 1/2 < r then f + 1
  else if f % 2 = 0 then f else f + 1

/-- `f"{x:.2f}"`. -/
def pyFormatF2 (q : ℚ) : String :=
  let n := roundHalfEven (q * 100)
  let sign := if n < 0 then "-" else ""
  let m := n.natAbs
  sign ++ natDecimalStr (m / 100) ++ "." ++
    (if m % 100 < 10 then "0" else "") ++ natDecimalStr (m % 100)

/-! ## The disclosure text generator
(`KoinlyProcessor.process_report`, processor.py lines 218-261). -/

/-- `re.search(r'0x[a-fA-F0-9]{4}', wallet_name_raw)` (case-sensitive),
returning the matched fragment or the empty string (line 234-237). -/
def walletAddressFragment (wallet_name_raw : String) : String :=
  match rsearchL (seqs [chrRE '0', chrRE 'x', repN 4 hexDigitRE]) wallet_name_raw.data with
  | some res => String.mk ((wallet_name_raw.data.drop res.1).take (res.2.1 - res.1))
  | none => ""

/-- The per-asset IRPF description (lines 228-259): an upper-cased
"SALDO DE ..." sentence, with the exchange phrase when the wallet has an
identified exchange, else the wallet/network phrase. -/
def generate_irpf_description (w : WalletDetail) (report_year : String) (a : AssetEntry) :
    String :=
  let is_exchange := w.exchange ≠ "NONE"
  let is_blockchain := w.blockchain ≠ "NONE"
  let amount_str := pyReplace (ratToDecString a.amount) "." ","
  let nm := a.name
  let yr := report_year
  if is_exchange then
    let ex := w.exchange
    pyUpper s!"SALDO DE {amount_str} {nm} CUSTODIADO NA EXCHANGE {ex} EM 31/12/{yr}."
  else
    let wallet_address := walletAddressFragment w.wallet_name_raw
    let bc := w.blockchain
    let network_part :=
      if is_blockchain then
        if wallet_address ≠ "" then s!"NA REDE {bc} {wallet_address}" else s!"NA REDE {bc}"
      else ""
    let wn := w.wallet_name
    pyUpper s!"SALDO DE {amount_str} {nm} CUSTODIADO NA CARTEIRA {wn} {network_part} EM 31/12/{yr}."

/-- Attach descriptions to every asset of every wallet (the loop at lines
220-259). -/
def generate_descriptions (report_year : String) (wallets : List WalletDetail) :
    List WalletDetail :=
  wallets.map (fun w =>
    { w with assets := w.assets.map (fun a =>
        { a with irpf_description := generate_irpf_description w report_year a }) })

/-! ## The tabular exporter
(`KoinlyProcessor._create_dataframes` lines 856-913 and
`KoinlyProcessor.save_to_csv` lines 917-966). -/

/-- One row of the final table. -/
structure FinalRow where
  ticker : String
  qtd : String
  custo : String
  discriminacao : String
  deriving Repr, DecidableEq, Inhabited

/-- The cost column text (lines 863-876): an explicit "needs manual
verification" sentence when no cost was derivable, `"0,00"` for tiny
positive costs, else the two-decimal comma-separated number. -/
def renderCostString (cost : Option ℚ) : String :=
  match cost with
  | none => "Verificar no Koinly - Custo não encontrado"
  | some c =>
    if c < 1/100 ∧ c > 0 then "0,00"
    else pyReplace (pyFormatF2 c) "." ","

/-- One final row per asset (lines 879-893). -/
def makeFinalRow (a : AssetEntry) : FinalRow :=
  let cost_str := renderCostString a.cost
  let qtd_str :=
    match a.amount_raw with
    | some r => pyReplace r "." ","
    | none => pyReplace (ratToDecString a.amount) "." ","
  { ticker := a.name, qtd := qtd_str, custo := cost_str,
    discriminacao := a.irpf_description }

/-- The flattening loop of `_create_dataframes` (lines 861-893). -/
def create_final_rows (wallets : List WalletDetail) : List FinalRow :=
  (wallets.map (fun w => w.assets.map makeFinalRow)).join

/-- The fixed column order of the output (lines 940-941). -/
def requiredColumns (report_year : String) : List String :=
  ["Ticker", "Qtd", "Custo R$ 31/12/" ++ report_year, "Discriminação"]

/-- `csv.QUOTE_ALL` escaping of one field: wrap in double quotes, double
any embedded quote. -/
def csvEscapeChars : List Char → List Char
  | [] => []
  | c :: r => if c = '"' then '"' :: '"' :: csvEscapeChars r else c :: csvEscapeChars r

/-- A fully quoted CSV field. -/
def csvQuoteField (s : String) : String := String.mk ('"' :: csvEscapeChars s.data ++ ['"'])

/-- One semicolon-delimited, all-quoted CSV line. -/
def csvRenderLine (fields : List String) : String :=
  String.intercalate ";" (fields.map csvQuoteField)

/-- Inverse of `csvQuoteField` past the opening quote: a final quote closes
the field, a doubled quote unescapes, a lone embedded quote is invalid. -/
def csvUnquoteAux : List Char → Option (List Char)
  | [] => none
  | c :: r =>
    if c = '"' then
      match r with
      | [] => some []
      | c2 :: r2 => if c2 = '"' then (csvUnquoteAux r2).map ('"' :: ·) else none
    else (csvUnquoteAux r).map (c :: ·)

/-- Inverse of `csvQuoteField`. -/
def csvUnquote (s : String) : Option String :=
  match s.data with
  | '"' :: rest => (csvUnquoteAux rest).map String.mk
  | _ => none

/-- The field list of one final row, in the required column order. -/
def rowFields (r : FinalRow) : List String :=
  [r.ticker, r.qtd, r.custo, r.discriminacao]

/-- `save_to_csv` (processor.py lines 917-966): the output file name
`<stem>_final.csv` and its content — `pandas.to_csv` with `sep=';'`,
`encoding='utf-8-sig'` (BOM prefix) and `quoting=csv.QUOTE_ALL`, over the
four required columns. -/
def save_to_csv (base_filename report_year : String) (rows : List FinalRow) :
    String × String :=
  (base_filename ++ "_final.csv",
   "\uFEFF" ++
     String.intercalate "\n"
       (csvRenderLine (requiredColumns report_year) :: rows.map (fun r => csvRenderLine (rowFields r)))
     ++ "\n")

/-- Total number of asset rows across all wallets. -/
def totalAssetCount (ws : List WalletDetail) : Nat :=
  (ws.map (fun w => w.assets.length)).sum

end Koinly


/-! # Verified claims -/

set_option maxRecDepth 400000

attribute [local semireducible] Rat.add Rat.mul Rat.inv Rat.ofScientific

namespace Koinly

/-- C10: every division performed by the parser and cost attributor is
guarded: the year-end unit price divides only under `quantity != 0`, the
per-unit cost basis only under a strictly positive year-end amount, and the
wallet proportion only under a strictly positive total year-end cost; the
checked variants (which fault on a zero divisor) therefore never fault and
agree with the direct translations, so no `ZeroDivisionError` can arise. -/
theorem division_sites_guarded :
    (∀ quantity value : ℚ, eoyPriceChecked quantity value = some (eoyPrice quantity value))
    ∧ (∀ (eoy : List EoyItem) (w : WalletDetail) (a : AssetEntry),
        assetCostChecked eoy w a = some (assetCost eoy w a))
    ∧ (∀ total_cost wallet_cost : ℚ,
        walletProportionChecked total_cost wallet_cost =
          some (walletProportion total_cost wallet_cost)) := by
  refine ⟨?_, ?_, ?_⟩
  · intro q v
    unfold eoyPriceChecked eoyPrice divChecked
    by_cases h : q = 0 <;> simp [h]
  · intro eoy w a
    unfold assetCostChecked assetCost divChecked
    by_cases h1 : w.is_new_format ∧ a.cost_reported.isSome
    · simp [h1]
    · simp only [if_neg h1]
      cases he : eoyLookup eoy a.name with
      | none => rfl
      | some e =>
        by_cases h2 : e.amount > 0
        · have hne : e.amount ≠ 0 := ne_of_gt h2
          simp [h2, hne]
        · simp [h2]
  · intro tc wc
    unfold walletProportionChecked walletProportion divChecked
    by_cases h : tc > 0
    · have hne : tc ≠ 0 := ne_of_gt h
      simp [h, hne]
    · simp [h]

/-- C4: the claim that numeric conversion never raises fails on the token
`"-."`: the normalizer returns `"-."` unchanged (the degenerate-token guard
checks only for `""`, `"."` and `"-"`), and `float("-.")` raises
`ValueError` — contradicting the normalizer's own contract of producing a
string safely convertible to float. -/
theorem clean_numeric_minus_dot_not_floatable :
    clean_numeric_str "-." = "-."
    ∧ pyFloat (clean_numeric_str "-.") = none
    ∧ pyFloatAccepts "-." = false := by
  refine ⟨by decide, by decide, by decide⟩

/-- C1: the claim fails on the code.  For the wallet title
`"Binance Smart Chain"`, `_identify_exchange` returns `"Binance"` (substring
match) and `_identify_blockchain` returns `"BSC"`; the BSC fix pass only
rewrites records whose `blockchain` field literally equals `"Exchange"`,
which the parser never produces, so the fix is a no-op and the record keeps
`exchange = "Binance"`.  The disclosure generator then treats the wallet as
Exchange "Binance" (`NA EXCHANGE BINANCE`), contradicting the fix module's
own documentation ("prevent them from being incorrectly classified as
Binance Exchange wallets"). -/
theorem bsc_title_classified_as_binance_exchange :
    (process_wallet_details_for_bsc
        (parse_wallet_details_from_lines
          ["Binance Smart Chain", "Currency Amount Price Value", "BNB 1 100 100"])).map
      (fun w => (w.wallet_name_raw, w.exchange, w.blockchain)) =
      [("Binance Smart Chain", "Binance", "BSC")]
    ∧ (generate_descriptions "2024"
        (process_wallet_details_for_bsc
          (parse_wallet_details_from_lines
            ["Binance Smart Chain", "Currency Amount Price Value", "BNB 1 100 100"]))).map
        (fun w => w.assets.map (fun a => pyIn "NA EXCHANGE BINANCE" a.irpf_description)) =
      [[true]] := by
  constructor
  · decide
  · decide

/-- C2 counterexample: the claim's cost formula is value-ratio based, but
the code divides by the year-end *amount*: with a year-end record
`{amount 4, value 200, cost 40}` and a holding `{amount 1, value 100}`, the
code attributes `40/4 × 1 = 10`, while the claimed formula
`(holding.value / year_end.value) × year_end.cost = (100/200) × 40` gives
`20`; and for an asset absent from the year-end records the code attributes
`None` — there is no fallback to the overall portfolio proportion. -/
theorem proportional_cost_formula_counterexample :
    (calculate_proportional_cost
        [{ asset := "BTC", amount := 4, price := 50, value := 200, cost := 40 }]
        [{ wallet_name := "W", wallet_name_raw := "W", blockchain := "NONE", exchange := "NONE",
           assets := [{ name := "BTC", amount := 1, value := 100 }], values := [100] }]).map
      (fun w => w.assets.map (fun a => a.cost)) = [[some 10]]
    ∧ (100 / 200 : ℚ) * 40 = 20
    ∧ (10 : ℚ) ≠ 20
    ∧ (calculate_proportional_cost
        [{ asset := "BTC", amount := 4, price := 50, value := 200, cost := 40 }]
        [{ wallet_name := "W", wallet_name_raw := "W", blockchain := "NONE", exchange := "NONE",
           assets := [{ name := "ETH", amount := 1, value := 100 }], values := [100] }]).map
      (fun w => w.assets.map (fun a => a.cost)) = [[none]] := by
  refine ⟨by decide, by decide, by decide, by decide⟩

/-- The amended claim's cost formula, written from its words: the amount
share of the year-end cost when the asset has a year-end record with
positive amount, `None` otherwise (no overall-portfolio fallback). -/
def amendedAmountShareCost (eoy : List EoyItem) (a : AssetEntry) : Option ℚ :=
  match eoyLookup eoy a.name with
  | some e => if 0 < e.amount then some (a.amount / e.amount * e.cost) else none
  | none => none

/-- In the two degenerate attribution branches (no year-end items, lines
805-830, and year-end total value non-positive, lines 779-804), a holding
without a usable reported cost is assigned cost `None`. -/
theorem degenerate_branch_asset_cost (w : WalletDetail) (a : AssetEntry) (j : Nat)
    (ha : w.assets[j]? = some a)
    (hnorep : ¬ (w.is_new_format ∧ a.cost_reported.isSome)) :
    (walletCostNoEoyItems w).assets[j]? = some { a with cost := none }
    ∧ (walletCostNoEoyValue w).assets[j]? = some { a with cost := none } := by
  have hb : ¬ w.assets.isEmpty = true := by
    intro hempty
    rw [List.isEmpty_iff] at hempty
    rw [hempty] at ha
    simp at ha
  constructor
  · unfold walletCostNoEoyItems
    rw [if_neg hb]
    cases hnf : w.is_new_format with
    | true =>
      have hrep : a.cost_reported = none := by
        cases hcr : a.cost_reported with
        | none => rfl
        | some cst => exact absurd ⟨hnf, by rw [hcr]; rfl⟩ hnorep
      rw [if_pos rfl]
      dsimp only
      rw [List.getElem?_map, ha, Option.map_some', hrep]
    | false =>
      rw [if_neg (by decide)]
      dsimp only
      rw [List.getElem?_map, ha, Option.map_some']
  · unfold walletCostNoEoyValue
    rw [if_neg hb]
    cases hnf : w.is_new_format with
    | true =>
      have hrep : a.cost_reported = none := by
        cases hcr : a.cost_reported with
        | none => rfl
        | some cst => exact absurd ⟨hnf, by rw [hcr]; rfl⟩ hnorep
      rw [if_pos rfl]
      dsimp only
      rw [List.getElem?_map, ha, Option.map_some', hrep]
    | false =>
      rw [if_neg (by decide)]
      dsimp only
      rw [List.getElem?_map, ha, Option.map_some']

/-- C2 (amended): for a holding without a usable reported cost, the
attributor behaves as follows.  On the main branch — year-end items
present with positive total value — when the year-end record of the asset
exists with strictly positive *amount*, the attributed cost is the amount
share `(holding.amount / year_end.amount) × year_end.cost` (unit cost
times held amount), and when the asset is absent from the year-end
records or the year-end amount is non-positive the attributed cost is
`None`.  In the remaining branches — no year-end items at all, or
year-end total value non-positive — the attributed cost is `None`
unconditionally, even when a positive-amount year-end record exists.  In
no branch is there a fallback to the wallet's share of overall portfolio
value. -/
theorem proportional_cost_amended (eoy : List EoyItem) (wallets : List WalletDetail)
    (i j : Nat) (w : WalletDetail) (a : AssetEntry)
    (hw : wallets[i]? = some w) (ha : w.assets[j]? = some a)
    (hnorep : ¬ (w.is_new_format ∧ a.cost_reported.isSome)) :
    (eoy ≠ [] → 0 < (eoy.map (fun e => e.value)).sum →
      ∃ w', (calculate_proportional_cost eoy wallets)[i]? = some w'
        ∧ w'.assets[j]? = some { a with cost := amendedAmountShareCost eoy a })
    ∧ ((eoy = [] ∨ (eoy.map (fun e => e.value)).sum ≤ 0) →
      ∃ w', (calculate_proportional_cost eoy wallets)[i]? = some w'
        ∧ w'.assets[j]? = some { a with cost := none }) := by
  constructor
  · intro hne hpos
    unfold calculate_proportional_cost
    rw [if_pos (by simpa using hne), if_pos hpos]
    refine ⟨walletCostMain eoy ((eoy.map (fun e => e.cost)).sum) w, ?_, ?_⟩
    · rw [List.getElem?_map, hw]; rfl
    · unfold walletCostMain
      have hb : ¬ w.assets.isEmpty := by
        intro hempty
        rw [List.isEmpty_iff] at hempty
        rw [hempty] at ha
        simp at ha
      rw [if_neg hb]
      simp only [List.getElem?_map, ha, Option.map_some']
      congr 2
      unfold assetCost amendedAmountShareCost
      rw [if_neg hnorep]
      cases eoyLookup eoy a.name with
      | none => rfl
      | some e =>
        dsimp only
        by_cases hpos' : e.amount > 0
        · rw [if_pos hpos', if_pos hpos']
          congr 1
          field_simp
          ring
        · rw [if_neg hpos', if_neg hpos']
  · intro hdeg
    unfold calculate_proportional_cost
    by_cases hemp : eoy.isEmpty = true
    · rw [if_neg (not_not_intro hemp)]
      refine ⟨walletCostNoEoyItems w, ?_,
        (degenerate_branch_asset_cost w a j ha hnorep).1⟩
      rw [List.getElem?_map, hw]; rfl
    · have hle : (eoy.map (fun e => e.value)).sum ≤ 0 := by
        rcases hdeg with rfl | hle
        · exact (hemp (by decide)).elim
        · exact hle
      rw [if_pos hemp, if_neg (not_lt.mpr hle)]
      refine ⟨walletCostNoEoyValue w, ?_,
        (degenerate_branch_asset_cost w a j ha hnorep).2⟩
      rw [List.getElem?_map, hw]; rfl

/-- C2 witness: the amended theorem applied at the concrete counterexample
input, yielding the amount-share cost `40/4 × 1 = 10`. -/
theorem proportional_cost_amended_witness :
    ∃ w', (calculate_proportional_cost
        [{ asset := "BTC", amount := 4, price := 50, value := 200, cost := 40 }]
        [{ wallet_name := "W", wallet_name_raw := "W", blockchain := "NONE", exchange := "NONE",
           assets := [{ name := "BTC", amount := 1, value := 100 }], values := [100] }])[0]?
      = some w'
      ∧ w'.assets[0]? = some { name := "BTC", amount := (1 : ℚ), value := (100 : ℚ),
                               cost := amendedAmountShareCost
                                 [{ asset := "BTC", amount := 4, price := 50,
                                    value := 200, cost := 40 }]
                                 { name := "BTC", amount := 1, value := 100 } } :=
  (proportional_cost_amended
    [{ asset := "BTC", amount := 4, price := 50, value := 200, cost := 40 }]
    [{ wallet_name := "W", wallet_name_raw := "W", blockchain := "NONE", exchange := "NONE",
       assets := [{ name := "BTC", amount := 1, value := 100 }], values := [100] }]
    0 0
    { wallet_name := "W", wallet_name_raw := "W", blockchain := "NONE", exchange := "NONE",
      assets := [{ name := "BTC", amount := 1, value := 100 }], values := [100] }
    { name := "BTC", amount := 1, value := 100 }
    (by decide) (by decide) (by decide)).1 (by decide) (by decide)

end Koinly

namespace Koinly

/-- C8: the Year-End Balance parser fails softly — if the "End of Year
Balances" section title is absent from the document text, or the bounded
scan recovers no records, it substitutes the built-in example dataset;
in particular the parser never returns an empty result. -/
theorem eoy_parser_fails_softly (text : String) :
    (rsearchL (litI "End of Year Balances") text.data = none →
      parse_eoy_section text = sample_eoy_data)
    ∧ (eoyScannedItems text = [] → parse_eoy_section text = sample_eoy_data)
    ∧ parse_eoy_section text ≠ [] := by
  refine ⟨?_, ?_, ?_⟩
  · intro h
    unfold parse_eoy_section eoyBoundedLines
    dsimp only
    rw [h]
  · intro h
    unfold eoyScannedItems at h
    unfold parse_eoy_section
    cases hb : eoyBoundedLines text with
    | none => rfl
    | some lines =>
      rw [hb] at h
      dsimp only at h ⊢
      rw [h]
      rfl
  · unfold parse_eoy_section
    cases hb : eoyBoundedLines text with
    | none => decide
    | some lines =>
      by_cases hi : (lines.filterMap eoyScanLineItem).isEmpty
      · simp only [hi, if_pos]
        decide
      · simp only [hi, if_neg, Bool.false_eq_true, not_false_eq_true]
        intro hcontra
        rw [hcontra] at hi
        simp at hi

/-- C8 witness: a document without the section title falls back to the
sample dataset and is non-empty. -/
theorem eoy_parser_fails_softly_witness :
    parse_eoy_section "no balances here" = sample_eoy_data
    ∧ parse_eoy_section "no balances here" ≠ [] :=
  ⟨(eoy_parser_fails_softly "no balances here").1 (by decide),
   (eoy_parser_fails_softly "no balances here").2.2⟩

end Koinly

namespace Koinly

theorem csvUnquoteAux_escape (l : List Char) :
    csvUnquoteAux (csvEscapeChars l ++ ['"']) = some l := by
  induction l with
  | nil => rfl
  | cons c r ih =>
    by_cases hc : c = '"'
    · subst hc
      have h1 : csvEscapeChars ('"' :: r) ++ ['"'] = '"' :: '"' :: (csvEscapeChars r ++ ['"']) := by
        simp [csvEscapeChars]
      rw [h1]
      show (csvUnquoteAux (csvEscapeChars r ++ ['"'])).map ('"' :: ·) = some ('"' :: r)
      rw [ih]
      rfl
    · have h1 : csvEscapeChars (c :: r) ++ ['"'] = c :: (csvEscapeChars r ++ ['"']) := by
        simp [csvEscapeChars, hc]
      rw [h1, csvUnquoteAux.eq_def]
      dsimp only
      rw [if_neg hc, ih]
      rfl

/-- C9: for every processed input the exporter emits exactly one CSV named
`<input-stem>_final.csv`, whose content is the BOM followed by
semicolon-delimited lines over the fixed column order `Ticker`, `Qtd`,
`Custo R$ 31/12/<year>`, `Discriminação`, with every field wrapped in
double quotes (embedded quotes doubled — `csvUnquote` recovers each field
exactly). -/
theorem save_to_csv_contract (stem year : String) (rows : List FinalRow) :
    (save_to_csv stem year rows).1 = stem ++ "_final.csv"
    ∧ (save_to_csv stem year rows).2 =
        "\uFEFF" ++ String.intercalate "\n"
          (csvRenderLine (requiredColumns year) ::
            rows.map (fun r => csvRenderLine (rowFields r))) ++ "\n"
    ∧ requiredColumns year = ["Ticker", "Qtd", "Custo R$ 31/12/" ++ year, "Discriminação"]
    ∧ (∀ fields : List String,
        csvRenderLine fields = String.intercalate ";" (fields.map csvQuoteField))
    ∧ (∀ r : FinalRow, rowFields r = [r.ticker, r.qtd, r.custo, r.discriminacao])
    ∧ (∀ s : String, (csvQuoteField s).data = '"' :: (csvEscapeChars s.data ++ ['"']))
    ∧ (∀ s : String, csvUnquote (csvQuoteField s) = some s) := by
  refine ⟨rfl, rfl, rfl, fun fields => rfl, fun r => rfl, fun s => rfl, fun s => ?_⟩
  unfold csvUnquote csvQuoteField
  show (csvUnquoteAux (csvEscapeChars s.data ++ ['"'])).map String.mk = some s
  rw [csvUnquoteAux_escape]
  rfl

end Koinly


namespace Koinly

theorem digitCharM_props (m : Nat) : digitCharM m ≠ 'V' ∧ digitCharM m ≠ '.' := by
  unfold digitCharM
  split_ifs <;> exact ⟨by decide, by decide⟩

theorem natDigitsAux_head (fuel n : Nat) :
    ∃ c cs, natDigitsAux fuel n = c :: cs ∧ c ≠ 'V' ∧ c ≠ '.' := by
  induction fuel generalizing n with
  | zero => exact ⟨digitCharM n, [], rfl, digitCharM_props n⟩
  | succ fuel ih =>
    by_cases h : n < 10
    · exact ⟨digitCharM n, [], by simp [natDigitsAux, h], digitCharM_props n⟩
    · obtain ⟨c, cs, hd, hv, hdot⟩ := ih (n / 10)
      refine ⟨c, cs ++ [digitCharM (n % 10)], ?_, hv, hdot⟩
      simp [natDigitsAux, h, hd]

theorem pyFormatF2_head (q : ℚ) :
    ∃ c cs, (pyFormatF2 q).data = c :: cs ∧ c ≠ 'V' ∧ c ≠ '.' := by
  unfold pyFormatF2
  dsimp only
  by_cases h : roundHalfEven (q * 100) < 0
  · rw [if_pos h]
    exact ⟨'-', _, rfl, by decide, by decide⟩
  · rw [if_neg h]
    obtain ⟨c, cs, hd, hv, hdot⟩ :=
      natDigitsAux_head ((roundHalfEven (q * 100)).natAbs / 100)
        ((roundHalfEven (q * 100)).natAbs / 100)
    have happ : ∀ x y : String, (x ++ y).data = x.data ++ y.data := fun _ _ => rfl
    refine ⟨c, cs ++ ("." ++
        (if (roundHalfEven (q * 100)).natAbs % 100 < 10 then "0" else "") ++
        natDecimalStr ((roundHalfEven (q * 100)).natAbs % 100)).data, ?_, hv, hdot⟩
    have hnd : (natDecimalStr ((roundHalfEven (q * 100)).natAbs / 100)).data = c :: cs := hd
    simp only [happ, List.append_assoc, List.nil_append, hnd, List.cons_append]

theorem pyReplaceAux_head (rep : List Char) (fuel : Nat) (c : Char) (cs : List Char)
    (hc : c ≠ '.') :
    ∃ ds, pyReplaceAux ['.'] rep fuel (c :: cs) = c :: ds := by
  cases fuel with
  | zero => exact ⟨cs, rfl⟩
  | succ fuel =>
    refine ⟨pyReplaceAux ['.'] rep fuel cs, ?_⟩
    show (if ['.'] ≠ ([] : List Char) ∧ isPrefixL ['.'] (c :: cs) then _ else
      c :: pyReplaceAux ['.'] rep fuel cs) = c :: pyReplaceAux ['.'] rep fuel cs
    rw [if_neg]
    rintro ⟨-, hpre⟩
    have h1 : (decide ('.' = c) && isPrefixL [] cs) = true := hpre
    simp only [Bool.and_eq_true, decide_eq_true_eq] at h1
    exact hc h1.1.symm

theorem renderCost_some_ne_placeholder (q : ℚ) :
    renderCostString (some q) ≠ renderCostString none := by
  unfold renderCostString
  dsimp only
  by_cases h : q < 1/100 ∧ q > 0
  · rw [if_pos h]
    decide
  · rw [if_neg h]
    intro heq
    obtain ⟨c, cs, hd, hv, hdot⟩ := pyFormatF2_head q
    have hdata : (pyReplace (pyFormatF2 q) "." ",").data =
        pyReplaceAux ['.'] [','] (pyFormatF2 q).data.length (pyFormatF2 q).data := rfl
    rw [hd] at hdata
    obtain ⟨ds, hds⟩ := pyReplaceAux_head [','] ((c :: cs).length) c cs hdot
    rw [hds] at hdata
    have hsame : (pyReplace (pyFormatF2 q) "." ",").data =
        "Verificar no Koinly - Custo não encontrado".data := by rw [heq]
    rw [hdata] at hsame
    have hhead : c = 'V' := by
      have h2 := congrArg List.head? hsame
      simpa using h2
    exact hv hhead

theorem isPrefixL_append_self (p rest : List Char) : isPrefixL p (p ++ rest) = true := by
  induction p with
  | nil => rfl
  | cons a as ih => simp [isPrefixL, ih]

theorem pyUpper_startswith_saldo (s : String) :
    pyStartswith (pyUpper ("SALDO DE " ++ s)) "SALDO DE " = true := by
  show isPrefixL "SALDO DE ".data (("SALDO DE " ++ s).data.map Char.toUpper) = true
  have h1 : ("SALDO DE " ++ s).data = "SALDO DE ".data ++ s.data := rfl
  rw [h1, List.map_append]
  have h2 : "SALDO DE ".data.map Char.toUpper = "SALDO DE ".data := by decide
  rw [h2]
  exact isPrefixL_append_self _ _

/-- C6: when no cost basis is derivable (no usable reported cost and no
year-end record), the attributed cost is `None`; the exporter renders the
explicit "Verificar no Koinly - Custo não encontrado" placeholder in the
cost column for a `None` cost — a string distinct from "0,00" and from
every rendered numeric cost; and the disclosure generator still (totally)
produces a "SALDO DE ..." description. -/
theorem no_cost_basis_placeholder (eoy : List EoyItem) (w : WalletDetail) (a : AssetEntry)
    (h1 : ¬ (w.is_new_format ∧ a.cost_reported.isSome))
    (h2 : eoyLookup eoy a.name = none) :
    assetCost eoy w a = none
    ∧ (∀ b : AssetEntry, b.cost = none →
        (makeFinalRow b).custo = "Verificar no Koinly - Custo não encontrado")
    ∧ (∀ q : ℚ, renderCostString (some q) ≠ renderCostString none)
    ∧ renderCostString none ≠ "0,00"
    ∧ (∀ (w' : WalletDetail) (year : String) (b : AssetEntry),
        pyStartswith (generate_irpf_description w' year b) "SALDO DE " = true) := by
  refine ⟨?_, ?_, renderCost_some_ne_placeholder, by decide, ?_⟩
  · unfold assetCost
    rw [if_neg h1, h2]
  · intro b hb
    unfold makeFinalRow renderCostString
    rw [hb]
  · intro w' year b
    unfold generate_irpf_description
    by_cases hex : w'.exchange ≠ "NONE"
    · simp only [if_pos hex]
      exact pyUpper_startswith_saldo _
    · simp only [if_neg hex]
      exact pyUpper_startswith_saldo _

/-- C6 witness: the theorem applied to an old-format wallet holding an
asset absent from the sample year-end records. -/
theorem no_cost_basis_placeholder_witness :
    assetCost sample_eoy_data
      { wallet_name := "W", wallet_name_raw := "W", blockchain := "NONE", exchange := "NONE" }
      { name := "ZZZ", amount := 1, value := 100 } = none
    ∧ (∀ b : AssetEntry, b.cost = none →
        (makeFinalRow b).custo = "Verificar no Koinly - Custo não encontrado")
    ∧ (∀ q : ℚ, renderCostString (some q) ≠ renderCostString none)
    ∧ renderCostString none ≠ "0,00"
    ∧ (∀ (w' : WalletDetail) (year : String) (b : AssetEntry),
        pyStartswith (generate_irpf_description w' year b) "SALDO DE " = true) :=
  no_cost_basis_placeholder sample_eoy_data
    { wallet_name := "W", wallet_name_raw := "W", blockchain := "NONE", exchange := "NONE" }
    { name := "ZZZ", amount := 1, value := 100 }
    (by decide) (by decide)

end Koinly

namespace Koinly

theorem set_eq_self_of_getElem? {α : Type} (l : List α) (i : Nat) (x : α)
    (h : l[i]? = some x) : l.set i x = l := by
  induction l generalizing i with
  | nil => simp at h
  | cons a t ih =>
    cases i with
    | zero =>
      simp only [List.getElem?_cons_zero, Option.some.injEq] at h
      simp [h]
    | succ j =>
      simp only [List.getElem?_cons_succ] at h
      simp [ih j h]

theorem map_updateWalletAt {α : Type} (ws : List WalletDetail) (i : Nat)
    (f : WalletDetail → WalletDetail) (g : WalletDetail → α)
    (h : ∀ w, g (f w) = g w) :
    (updateWalletAt ws i f).map g = ws.map g := by
  unfold updateWalletAt
  cases h' : ws[i]? with
  | none => rfl
  | some w =>
    rw [List.map_set, h w]
    apply set_eq_self_of_getElem?
    rw [List.getElem?_map, h']
    rfl

theorem appendAssetTo_assets (w : WalletDetail) (a : AssetEntry) (hc : Bool) :
    (appendAssetTo w a hc).assets = w.assets ++ [a] := by
  unfold appendAssetTo
  split_ifs <;> rfl

theorem appendAssetTo_values (w : WalletDetail) (a : AssetEntry) (hc : Bool) :
    (appendAssetTo w a hc).values = w.values ++ [a.value] := by
  unfold appendAssetTo
  split_ifs <;> rfl

theorem appendAssetTo_raw (w : WalletDetail) (a : AssetEntry) (hc : Bool) :
    (appendAssetTo w a hc).wallet_name_raw = w.wallet_name_raw := by
  unfold appendAssetTo
  split_ifs <;> rfl

theorem totalAssetCount_set (ws : List WalletDetail) (i : Nat) (x w : WalletDetail)
    (h : ws[i]? = some w) :
    totalAssetCount (ws.set i x) + w.assets.length =
      totalAssetCount ws + x.assets.length := by
  induction ws generalizing i with
  | nil => simp at h
  | cons a t ih =>
    cases i with
    | zero =>
      simp only [List.getElem?_cons_zero, Option.some.injEq] at h
      subst h
      simp [totalAssetCount]
      omega
    | succ j =>
      simp only [List.getElem?_cons_succ] at h
      have := ih j h
      simp only [List.set, totalAssetCount, List.map_cons, List.sum_cons] at this ⊢
      omega

theorem totalAssetCount_append_at (ws : List WalletDetail) (i : Nat) (w : WalletDetail)
    (a : AssetEntry) (hc : Bool) (h : ws[i]? = some w) :
    totalAssetCount (updateWalletAt ws i (fun w' => appendAssetTo w' a hc)) =
      totalAssetCount ws + 1 := by
  unfold updateWalletAt
  rw [h]
  dsimp only
  have h2 := totalAssetCount_set ws i (appendAssetTo w a hc) w h
  have h3 : (appendAssetTo w a hc).assets.length = w.assets.length + 1 := by
    rw [appendAssetTo_assets]
    simp
  omega

theorem getLast?_updateWalletAt_last (ws : List WalletDetail)
    (f : WalletDetail → WalletDetail) (hne : ws ≠ []) :
    (updateWalletAt ws (ws.length - 1) f).getLast? = (ws.getLast?).map f := by
  unfold updateWalletAt
  have hlt : ws.length - 1 < ws.length := by
    cases ws with
    | nil => exact absurd rfl hne
    | cons a t => simp
  cases hidx : ws[ws.length - 1]? with
  | none =>
    rw [List.getElem?_eq_none_iff] at hidx
    omega
  | some w =>
    dsimp only
    rw [List.getLast?_eq_getElem?, List.length_set, List.getElem?_set_self', hidx,
      List.getLast?_eq_getElem?, hidx]
    rfl

end Koinly


namespace Koinly

/-- C5: a line matching the currency-data pattern is handled by the
currency branch before the generic title pattern is ever consulted — the
scan never opens or renames a wallet on such a line (1); the row is
appended as a holding only when a column header has been seen for the
current wallet (2); when the wallet context is lost (no entry matches the
current name) the holding is attached to the most recently opened
WalletGroup and a warning is logged (3); and a currency line is never
silently dropped: either an asset row is appended somewhere or at least
one log event is emitted (4).  (The "Total cost at ..." check precedes the
currency check in the source, hence the `htc` hypothesis.) -/
theorem currency_line_priority_and_integrity (st : ScanState) (line : String)
    (hcur : (rmatch currency_data_pattern (pyStrip line)).isSome = true)
    (htc : rmatch total_wallet_cost_pattern (pyStrip line) = none) :
    ((scanLine st line).wallets.map (fun w => w.wallet_name_raw) =
        st.wallets.map (fun w => w.wallet_name_raw)
      ∧ (scanLine st line).currentName = st.currentName)
    ∧ (st.header_found = false → (scanLine st line).wallets = st.wallets)
    ∧ (∀ g n a hasCost, rmatch currency_data_pattern (pyStrip line) = some (g, n) →
        st.header_found = true →
        entryIdx st.wallets st.currentName = none →
        st.wallets ≠ [] →
        assetOfCaps g = some (a, hasCost) →
        ((scanLine st line).wallets.getLast?).map (fun w => w.assets) =
          (st.wallets.getLast?).map (fun w => w.assets ++ [a])
        ∧ ∃ nm wr, ScanEvent.currencyLostContext nm wr ∈ (scanLine st line).events)
    ∧ (totalAssetCount (scanLine st line).wallets = totalAssetCount st.wallets + 1
        ∨ (scanLine st line).events.length = st.events.length + 1
        ∨ (scanLine st line).events.length = st.events.length + 2) := by
  obtain ⟨⟨g0, n0⟩, hg0⟩ : ∃ p, rmatch currency_data_pattern (pyStrip line) = some p :=
    Option.isSome_iff_exists.mp hcur
  have hline : ¬ pyStrip line = "" := by
    intro h0
    have hempty : rmatch currency_data_pattern "" = none := by decide
    rw [h0, hempty] at hg0
    exact absurd hg0 (by simp)
  have hscan : scanLine st line = handleCurrencyData st g0 (pyStrip line) := by
    unfold scanLine
    dsimp only
    rw [if_neg hline, htc]
    dsimp only
    rw [hg0]
  rw [hscan]
  unfold handleCurrencyData
  cases hh : st.header_found with
  | false =>
    rw [if_neg (by simp)]
    refine ⟨⟨rfl, rfl⟩, fun _ => rfl, ?_, ?_⟩
    · intro _ _ _ _ _ hh' _ _ _
      exact absurd hh' (by decide)
    · right; left
      rfl
  | true =>
    rw [if_pos rfl]
    cases hei : entryIdx st.wallets st.currentName with
    | some i =>
      have hlt : i < st.wallets.length := by
        unfold entryIdx at hei
        exact (List.findIdx?_eq_some_iff_findIdx_eq.mp hei).1
      have hw : st.wallets[i]? = some st.wallets[i] := List.getElem?_eq_getElem hlt
      cases hac : assetOfCaps g0 with
      | none =>
        dsimp only
        refine ⟨⟨rfl, rfl⟩, ?_, ?_, ?_⟩
        · intro hh'
          exact absurd hh' (by decide)
        · intro g n a hc hg _ hei' _ _
          exact Option.noConfusion hei'
        · right; left
          rfl
      | some p =>
        obtain ⟨a, hc⟩ := p
        dsimp only
        refine ⟨⟨?_, rfl⟩, ?_, ?_, ?_⟩
        · exact map_updateWalletAt _ _ _ _ (fun w' => appendAssetTo_raw w' a hc)
        · intro hh'
          exact absurd hh' (by decide)
        · intro g n a' hc' hg _ hei' _ _
          exact Option.noConfusion hei'
        · left
          exact totalAssetCount_append_at _ _ _ _ _ hw
    | none =>
      cases hws : st.wallets with
      | nil =>
        dsimp only
        refine ⟨⟨rfl, rfl⟩, fun _ => rfl, ?_, ?_⟩
        · intro _ _ _ _ _ _ _ hne _
          exact absurd rfl hne
        · right; left
          rfl
      | cons w0 rest =>
        cases hac : assetOfCaps g0 with
        | none =>
          dsimp only
          refine ⟨⟨rfl, rfl⟩, ?_, ?_, ?_⟩
          · intro hh'
            exact absurd hh' (by decide)
          · intro g n a hc hg _ _ _ hac'
            rw [hg] at hg0
            injection hg0 with hpair
            injection hpair with hga hna
            rw [hga, hac] at hac'
            exact Option.noConfusion hac'
          · right; right
            rfl
        | some p =>
          obtain ⟨a, hc⟩ := p
          dsimp only
          have hw : (w0 :: rest)[(w0 :: rest).length - 1]? =
              some ((w0 :: rest).getLast (by simp)) := by
            rw [← List.getLast?_eq_getElem?, List.getLast?_eq_getLast _ (by simp)]
          refine ⟨⟨?_, rfl⟩, ?_, ?_, ?_⟩
          · exact map_updateWalletAt _ _ _ _ (fun w' => appendAssetTo_raw w' a hc)
          · intro hh'
            exact absurd hh' (by decide)
          · intro g n a' hc' hg _ _ _ hac'
            rw [hg] at hg0
            injection hg0 with hpair
            injection hpair with hga hna
            rw [hga, hac] at hac'
            injection hac' with hp
            injection hp with ha' hc''
            constructor
            · rw [getLast?_updateWalletAt_last _ _ (by simp)]
              rw [List.getLast?_eq_getLast _ (by simp)]
              rw [← ha']
              simp [appendAssetTo_assets]
            · exact ⟨_, _, List.mem_cons_self _ _⟩
          · left
            exact totalAssetCount_append_at _ _ _ a hc hw

end Koinly

namespace Koinly

theorem currency_line_priority_and_integrity_witness :
    ((rmatch currency_data_pattern (pyStrip "BTC 0.5 10 5")).isSome = true)
    ∧ (rmatch total_wallet_cost_pattern (pyStrip "BTC 0.5 10 5") = none)
    ∧ (scanLine
        { wallets := [{ wallet_name := "Binance Exchange",
                        wallet_name_raw := "Binance Exchange",
                        blockchain := "None", exchange := "Binance" }],
          currentName := "Binance Exchange", header_found := true }
        "BTC 0.5 10 5").currentName = "Binance Exchange" :=
  ⟨by decide, by decide,
    (currency_line_priority_and_integrity
      { wallets := [{ wallet_name := "Binance Exchange",
                      wallet_name_raw := "Binance Exchange",
                      blockchain := "None", exchange := "Binance" }],
        currentName := "Binance Exchange", header_found := true }
      "BTC 0.5 10 5" (by decide) (by decide)).1.2⟩

end Koinly

namespace Koinly

/-- The scan invariant behind `total_value`: the running `values` list of a
wallet dict is exactly the list of its assets' `value` fields. -/
def valuesInv (ws : List WalletDetail) : Prop :=
  ∀ w ∈ ws, w.values = w.assets.map (fun a => a.value)

theorem mem_updateWalletAt_cases {ws : List WalletDetail} {i : Nat}
    {f : WalletDetail → WalletDetail} {w : WalletDetail}
    (hmem : w ∈ updateWalletAt ws i f) : w ∈ ws ∨ ∃ w', w' ∈ ws ∧ w = f w' := by
  unfold updateWalletAt at hmem
  cases hg : ws[i]? with
  | none => rw [hg] at hmem; exact Or.inl hmem
  | some w' =>
    rw [hg] at hmem
    rcases List.mem_or_eq_of_mem_set hmem with h | h
    · exact Or.inl h
    · exact Or.inr ⟨w', ws.getElem?_mem hg, h⟩

theorem values_inv_updateWalletAt {ws : List WalletDetail} {i : Nat}
    {f : WalletDetail → WalletDetail} (h : valuesInv ws)
    (hf : ∀ w', w'.values = w'.assets.map (fun a => a.value) →
        (f w').values = (f w').assets.map (fun a => a.value)) :
    valuesInv (updateWalletAt ws i f) := by
  intro w hw
  rcases mem_updateWalletAt_cases hw with h1 | ⟨w', hw', rfl⟩
  · exact h _ h1
  · exact hf w' (h _ hw')

theorem values_inv_appendAssetTo {w : WalletDetail} (a : AssetEntry) (hc : Bool)
    (h : w.values = w.assets.map (fun x => x.value)) :
    (appendAssetTo w a hc).values = (appendAssetTo w a hc).assets.map (fun x => x.value) := by
  unfold appendAssetTo
  dsimp only
  split
  all_goals first
  | (dsimp only; rw [List.map_append, ← h]; rfl)
  | (rw [List.map_append, ← h]; rfl)

theorem handleTotalCost_values_inv (st : ScanState) (g : Caps) (line : String)
    (h : valuesInv st.wallets) : valuesInv (handleTotalCost st g line).wallets := by
  unfold handleTotalCost
  split
  · try dsimp only
    exact values_inv_updateWalletAt h (fun w' hw' => hw')
  · exact h

theorem handleCurrencyData_values_inv (st : ScanState) (g : Caps) (line : String)
    (h : valuesInv st.wallets) : valuesInv (handleCurrencyData st g line).wallets := by
  unfold handleCurrencyData
  split
  · split
    · split
      · try dsimp only
        exact values_inv_updateWalletAt h (fun w' hw' => values_inv_appendAssetTo _ _ hw')
      · exact h
    · split
      · exact h
      · dsimp only
        split
        · try dsimp only
          exact values_inv_updateWalletAt h (fun w' hw' => values_inv_appendAssetTo _ _ hw')
        · exact h
  · exact h

theorem handleNewHeader_values_inv (st : ScanState)
    (h : valuesInv st.wallets) : valuesInv (handleNewHeader st).wallets := by
  unfold handleNewHeader
  try dsimp only
  split
  · exact values_inv_updateWalletAt h (fun w' hw' => hw')
  · exact h

theorem handleOldHeader_values_inv (st : ScanState)
    (h : valuesInv st.wallets) : valuesInv (handleOldHeader st).wallets := by
  unfold handleOldHeader
  try dsimp only
  split
  · exact values_inv_updateWalletAt h (fun w' hw' => hw')
  · exact h

theorem handleTitle_values_inv (st : ScanState) (g : Caps) (line : String)
    (h : valuesInv st.wallets) : valuesInv (handleTitle st g line).wallets := by
  unfold handleTitle
  try dsimp only
  split
  · try dsimp only
    split
    · try dsimp only
      intro w hw
      rcases List.mem_append.mp hw with h1 | h2
      · exact h _ h1
      · rw [List.mem_singleton.mp h2]
        rfl
    · exact h
  · split
    · try dsimp only
      split
      · exact values_inv_updateWalletAt h
          (fun w' hw' => by first | (dsimp only; split <;> exact hw') | (split <;> exact hw'))
      · exact h
    · exact h

theorem scanLine_values_inv (st : ScanState) (line : String)
    (h : valuesInv st.wallets) : valuesInv (scanLine st line).wallets := by
  unfold scanLine
  dsimp only
  split
  · exact h
  split
  · exact handleTotalCost_values_inv _ _ _ h
  split
  · exact handleCurrencyData_values_inv _ _ _ h
  split
  · exact handleNewHeader_values_inv _ h
  split
  · exact handleOldHeader_values_inv _ h
  split
  · exact h
  split
  · exact h
  split
  · exact handleTitle_values_inv _ _ _ h
  · exact h

theorem foldl_scan_values_inv (lines : List String) (st : ScanState)
    (h : valuesInv st.wallets) : valuesInv (lines.foldl scanLine st).wallets := by
  induction lines generalizing st with
  | nil => exact h
  | cons l ls ih => exact ih _ (scanLine_values_inv _ _ h)

theorem parse_wallet_details_totals (lines : List String) :
    ∀ w ∈ parse_wallet_details_from_lines lines,
      w.total_value = (w.assets.map (fun a => a.value)).sum := by
  unfold parse_wallet_details_from_lines
  dsimp only
  split
  · decide
  · intro w hw
    unfold finalizeWallets at hw
    rcases List.mem_map.mp hw with ⟨w', hw', rfl⟩
    have hinv : w'.values = w'.assets.map (fun a => a.value) :=
      foldl_scan_values_inv lines {} (fun w hw => absurd hw (List.not_mem_nil w)) w' hw'
    dsimp only
    rw [hinv]

end Koinly

namespace Koinly

theorem walletCostMain_raw (eoy : List EoyItem) (tc : ℚ) (w : WalletDetail) :
    (walletCostMain eoy tc w).wallet_name_raw = w.wallet_name_raw := by
  unfold walletCostMain
  split <;> rfl

theorem walletCostNoEoyValue_raw (w : WalletDetail) :
    (walletCostNoEoyValue w).wallet_name_raw = w.wallet_name_raw := by
  unfold walletCostNoEoyValue
  split
  · rfl
  split <;> rfl

theorem walletCostNoEoyItems_raw (w : WalletDetail) :
    (walletCostNoEoyItems w).wallet_name_raw = w.wallet_name_raw := by
  unfold walletCostNoEoyItems
  split
  · rfl
  split <;> rfl

theorem calc_cost_preserves_raw (eoy : List EoyItem) (ws : List WalletDetail) :
    (calculate_proportional_cost eoy ws).map (fun w => w.wallet_name_raw)
      = ws.map (fun w => w.wallet_name_raw) := by
  unfold calculate_proportional_cost
  split
  · dsimp only
    split
    · rw [List.map_map]
      exact List.map_congr_left (fun a _ => walletCostMain_raw _ _ a)
    · rw [List.map_map]
      exact List.map_congr_left (fun a _ => walletCostNoEoyValue_raw a)
  · rw [List.map_map]
    exact List.map_congr_left (fun a _ => walletCostNoEoyItems_raw a)

theorem walletCostMain_keeps_totals (eoy : List EoyItem) (tc : ℚ) (w : WalletDetail)
    (h : w.total_value = (w.assets.map (fun a => a.value)).sum) :
    (walletCostMain eoy tc w).total_value =
      ((walletCostMain eoy tc w).assets.map (fun a => a.value)).sum := by
  unfold walletCostMain
  split
  · exact h
  · dsimp only
    rw [List.map_map]
    exact h

theorem walletCostNoEoyValue_keeps_totals (w : WalletDetail)
    (h : w.total_value = (w.assets.map (fun a => a.value)).sum) :
    (walletCostNoEoyValue w).total_value =
      ((walletCostNoEoyValue w).assets.map (fun a => a.value)).sum := by
  unfold walletCostNoEoyValue
  split
  · exact h
  split
  · dsimp only
    rw [List.map_map]
    exact h
  · dsimp only
    rw [List.map_map]
    exact h

theorem walletCostNoEoyItems_keeps_totals (w : WalletDetail)
    (h : w.total_value = (w.assets.map (fun a => a.value)).sum) :
    (walletCostNoEoyItems w).total_value =
      ((walletCostNoEoyItems w).assets.map (fun a => a.value)).sum := by
  unfold walletCostNoEoyItems
  split
  · exact h
  split
  · dsimp only
    rw [List.map_map]
    exact h
  · dsimp only
    rw [List.map_map]
    exact h

theorem walletCostMain_empty (eoy : List EoyItem) (tc : ℚ) (w : WalletDetail)
    (he : (walletCostMain eoy tc w).assets.isEmpty = true) :
    (walletCostMain eoy tc w).cost = some 0 ∧ (walletCostMain eoy tc w).proportion = some 0 := by
  cases hA : w.assets with
  | nil => simp [walletCostMain, hA]
  | cons a as =>
    exfalso
    simp [walletCostMain, hA] at he

theorem walletCostNoEoyValue_empty (w : WalletDetail)
    (he : (walletCostNoEoyValue w).assets.isEmpty = true) :
    (walletCostNoEoyValue w).cost = some 0 := by
  cases hA : w.assets with
  | nil => simp [walletCostNoEoyValue, hA]
  | cons a as =>
    exfalso
    cases hnf : w.is_new_format <;>
      simp [walletCostNoEoyValue, hA, hnf] at he

theorem walletCostNoEoyItems_empty (w : WalletDetail)
    (he : (walletCostNoEoyItems w).assets.isEmpty = true) :
    (walletCostNoEoyItems w).cost = some 0
    ∧ (walletCostNoEoyItems w).proportion = some 0 := by
  cases hA : w.assets with
  | nil => simp [walletCostNoEoyItems, hA]
  | cons a as =>
    exfalso
    cases hnf : w.is_new_format <;>
      simp [walletCostNoEoyItems, hA, hnf] at he

end Koinly

namespace Koinly

/-- C7 counterexample: feed the scanner a lone title line "My Wallet"
(which opens an empty wallet group) and an end-of-year list whose total
value is zero.  The attributor's degenerate branch (processor.py lines
782-785) sets the empty wallet's cost to 0 but `continue`s past the
`proportion = 0` assignment at line 804, so the wallet keeps the
post-scan default proportion of 1.0 — contradicting the claim that an
empty WalletGroup is retained with cost and proportion both zero. -/
theorem empty_wallet_proportion_counterexample :
    (calculate_proportional_cost
        [{ asset := "X", amount := 0, price := 0, value := 0, cost := 0 }]
        (parse_wallet_details_from_lines ["My Wallet"])).map
      (fun w => (w.assets.isEmpty, w.cost, w.proportion)) =
    [(true, some 0, some (1 : ℚ))] := by decide

/-- C7 (amended): after the wallet-detail scan every wallet's
`total_value` is exactly the sum of its holdings' `value` fields, and the
cost attributor preserves both this identity and the wallet list (no
wallet is dropped); an empty wallet always gets cost 0, and gets
proportion 0 whenever the end-of-year list is absent or has positive
total value (in the remaining degenerate branch — EOY present with
non-positive total value — the `continue` leaves the scan's default
proportion in place). -/
theorem wallet_totals_and_empty_wallets_amended (lines : List String) (eoy : List EoyItem) :
    (∀ w ∈ parse_wallet_details_from_lines lines,
        w.total_value = (w.assets.map (fun a => a.value)).sum)
    ∧ (∀ w ∈ calculate_proportional_cost eoy (parse_wallet_details_from_lines lines),
        w.total_value = (w.assets.map (fun a => a.value)).sum)
    ∧ (calculate_proportional_cost eoy (parse_wallet_details_from_lines lines)).map
          (fun w => w.wallet_name_raw)
        = (parse_wallet_details_from_lines lines).map (fun w => w.wallet_name_raw)
    ∧ (∀ w ∈ calculate_proportional_cost eoy (parse_wallet_details_from_lines lines),
        w.assets.isEmpty = true →
          w.cost = some 0
          ∧ (eoy.isEmpty = true ∨ 0 < (eoy.map (fun e => e.value)).sum →
              w.proportion = some 0)) := by
  refine ⟨parse_wallet_details_totals lines, ?_, calc_cost_preserves_raw _ _, ?_⟩
  · intro w hw
    unfold calculate_proportional_cost at hw
    split at hw
    · dsimp only at hw
      split at hw
      · rcases List.mem_map.mp hw with ⟨w', hw', rfl⟩
        exact walletCostMain_keeps_totals _ _ _ (parse_wallet_details_totals lines w' hw')
      · rcases List.mem_map.mp hw with ⟨w', hw', rfl⟩
        exact walletCostNoEoyValue_keeps_totals _ (parse_wallet_details_totals lines w' hw')
    · rcases List.mem_map.mp hw with ⟨w', hw', rfl⟩
      exact walletCostNoEoyItems_keeps_totals _ (parse_wallet_details_totals lines w' hw')
  · intro w hw he
    unfold calculate_proportional_cost at hw
    split at hw
    case isTrue hcond =>
      dsimp only at hw
      split at hw
      case isTrue hv =>
        rcases List.mem_map.mp hw with ⟨w', _, rfl⟩
        exact ⟨(walletCostMain_empty _ _ _ he).1, fun _ => (walletCostMain_empty _ _ _ he).2⟩
      case isFalse hv =>
        rcases List.mem_map.mp hw with ⟨w', _, rfl⟩
        refine ⟨walletCostNoEoyValue_empty _ he, fun hor => ?_⟩
        rcases hor with h1 | h2
        · exact absurd h1 hcond
        · exact absurd h2 hv
    case isFalse hcond =>
      rcases List.mem_map.mp hw with ⟨w', _, rfl⟩
      exact ⟨(walletCostNoEoyItems_empty _ he).1, fun _ => (walletCostNoEoyItems_empty _ he).2⟩

end Koinly

namespace Koinly

/-- The single wallet produced by scanning the lone title line
"My Wallet" and attributing costs against a positive-value EOY list. -/
def c7Wallet : WalletDetail :=
  { wallet_name := "My Wallet", wallet_name_raw := "My Wallet", blockchain := "NONE",
    exchange := "NONE", address := none, assets := [], values := [],
    is_new_format := false, total_wallet_cost := none, total_value := 0,
    proportion := some 0, cost := some 0 }

theorem wallet_totals_and_empty_wallets_amended_witness :
    (c7Wallet ∈
      calculate_proportional_cost
        [{ asset := "BTC", amount := 1, price := 100, value := 100, cost := 50 }]
        (parse_wallet_details_from_lines ["My Wallet"]))
    ∧ c7Wallet.assets.isEmpty = true
    ∧ c7Wallet.cost = some 0
    ∧ c7Wallet.proportion = some 0 :=
  ⟨by decide, by decide,
   ((wallet_totals_and_empty_wallets_amended ["My Wallet"]
       [{ asset := "BTC", amount := 1, price := 100, value := 100, cost := 50 }]).2.2.2
     c7Wallet (by decide) (by decide)).1,
   ((wallet_totals_and_empty_wallets_amended ["My Wallet"]
       [{ asset := "BTC", amount := 1, price := 100, value := 100, cost := 50 }]).2.2.2
     c7Wallet (by decide) (by decide)).2 (Or.inr (by decide))⟩

end Koinly

namespace Koinly

theorem digit_ne {x : Char} (ch : Char) (h : x.isDigit = true) (hch : ch.isDigit = false) :
    x ≠ ch := fun he => by rw [he, hch] at h; exact Bool.noConfusion h

theorem dropWhile_eq_self_of (p : Char → Bool) (l : List Char)
    (h : ∀ x ∈ l, p x = false) : l.dropWhile p = l := by
  cases l with
  | nil => rfl
  | cons x xs =>
    exact List.dropWhile_cons_of_neg (by simp [h x (List.mem_cons_self x xs)])

theorem pyStripL_eq_self (l : List Char) (h : ∀ x ∈ l, isPySpace x = false) :
    pyStripL l = l := by
  unfold pyStripL
  rw [dropWhile_eq_self_of _ _ h,
      dropWhile_eq_self_of _ _ (fun x hx => h x (List.mem_reverse.mp hx)),
      List.reverse_reverse]

theorem map_eq_self_of (f : Char → Char) (l : List Char) (h : ∀ x ∈ l, f x = x) :
    l.map f = l := by
  induction l with
  | nil => rfl
  | cons x xs ih =>
    rw [List.map_cons, h x (List.mem_cons_self x xs),
        ih (fun y hy => h y (List.mem_cons_of_mem x hy))]

theorem digit_not_space {x : Char} (h : x.isDigit = true) : isPySpace x = false := by
  have h1 := digit_ne ' ' h (by decide)
  have h2 := digit_ne '\t' h (by decide)
  have h3 := digit_ne '\n' h (by decide)
  have h4 := digit_ne '\r' h (by decide)
  have h5 := digit_ne '\x0b' h (by decide)
  have h6 := digit_ne '\x0c' h (by decide)
  simp [isPySpace, h1, h2, h3, h4, h5, h6]

theorem digit_not_glyph {x : Char} (h : x.isDigit = true) :
    currencyGlyphs.contains x = false := by
  have hm : x ∉ currencyGlyphs := by
    intro hm
    simp [currencyGlyphs] at hm
    rcases hm with h1 | h1 | h1 | h1 | h1 <;> (rw [h1] at h; exact absurd h (by decide))
  simpa using hm

theorem rfindC_neg_of_not_mem (ch : Char) (l : List Char) (h : ∀ x ∈ l, x ≠ ch) :
    rfindC ch l = -1 := by
  induction l with
  | nil => rfl
  | cons x xs ih =>
    unfold rfindC
    rw [ih (fun y hy => h y (List.mem_cons_of_mem x hy))]
    dsimp only
    rw [if_neg (by decide), if_neg (h x (List.mem_cons_self x xs))]

theorem rfindC_cases (ch : Char) (l : List Char) :
    rfindC ch l = -1 ∨ rfindC ch l ≥ 0 := by
  induction l with
  | nil => exact Or.inl rfl
  | cons x xs ih =>
    unfold rfindC
    dsimp only
    rcases ih with h | h
    · rw [h, if_neg (by decide)]
      by_cases hx : x = ch
      · rw [if_pos hx]
        exact Or.inr (by decide)
      · rw [if_neg hx]
        exact Or.inl rfl
    · rw [if_pos h]
      exact Or.inr (by omega)

theorem rfindC_cons (ch x : Char) (xs : List Char) :
    rfindC ch (x :: xs) =
      if rfindC ch xs ≥ 0 then rfindC ch xs + 1 else if x = ch then 0 else -1 := rfl

theorem rfindC_append (ch : Char) (xs ys : List Char) :
    rfindC ch (xs ++ ys) =
      if rfindC ch ys ≥ 0 then (xs.length : Int) + rfindC ch ys else rfindC ch xs := by
  induction xs with
  | nil =>
    rw [List.nil_append]
    rcases rfindC_cases ch ys with h | h
    · rw [h, if_neg (show ¬ ((-1 : Int) ≥ 0) by decide)]
      rfl
    · rw [if_pos h]
      simp
  | cons x xs ih =>
    rcases rfindC_cases ch ys with h | h
    · rw [if_neg (show ¬ rfindC ch ys ≥ 0 by rw [h]; decide), List.cons_append,
          rfindC_cons ch x (xs ++ ys), rfindC_cons ch x xs, ih, h,
          if_neg (show ¬ ((-1 : Int) ≥ 0) by decide)]
    · rw [if_pos h, List.cons_append, rfindC_cons ch x (xs ++ ys), ih, if_pos h,
          if_pos (show (xs.length : Int) + rfindC ch ys ≥ 0 by omega)]
      rw [List.length_cons]
      push_cast
      ring

theorem rfindC_cons_self_none (ch : Char) (l : List Char) (h : rfindC ch l = -1) :
    rfindC ch (ch :: l) = 0 := by
  rw [rfindC_cons, h, if_neg (show ¬ ((-1 : Int) ≥ 0) by decide), if_pos rfl]

theorem rfindC_cons_of_tail (ch x : Char) (l : List Char) (h : rfindC ch l ≥ 0) :
    rfindC ch (x :: l) = rfindC ch l + 1 := by
  rw [rfindC_cons, if_pos h]

theorem final_guard_of_shape (u v : List Char)
    (hu : ∀ x ∈ u, x.isDigit = true) (hv : ∀ x ∈ v, x.isDigit = true)
    (hne : u ≠ [] ∨ v ≠ []) :
    ¬(u ++ ('.' :: v) = [] ∨ u ++ ('.' :: v) = ['.'] ∨ u ++ ('.' :: v) = ['-']) := by
  intro hor
  rcases hor with h | h | h
  · rcases List.append_eq_nil.mp h with ⟨-, h2⟩
    exact List.cons_ne_nil _ _ h2
  · cases u with
    | nil =>
      rw [List.nil_append] at h
      injection h with h1 h2
      rcases hne with h3 | h3
      · exact h3 rfl
      · exact h3 h2
    | cons x xs =>
      rw [List.cons_append] at h
      injection h with h1 h2
      have hd := hu x (List.mem_cons_self x xs)
      rw [h1] at hd
      exact absurd hd (by decide)
  · cases u with
    | nil =>
      rw [List.nil_append] at h
      injection h with h1 h2
      exact absurd h1 (by decide)
    | cons x xs =>
      rw [List.cons_append] at h
      injection h with h1 h2
      have hd := hu x (List.mem_cons_self x xs)
      rw [h1] at hd
      exact absurd hd (by decide)

end Koinly

namespace Koinly

theorem cleanNumeric_both_comma_last (a b c : List Char)
    (ha : ∀ x ∈ a, x.isDigit = true) (hb : ∀ x ∈ b, x.isDigit = true)
    (hc : ∀ x ∈ c, x.isDigit = true) (hne : a ≠ [] ∨ b ≠ [] ∨ c ≠ []) :
    cleanNumericL (a ++ ('.' :: (b ++ (',' :: c)))) true = (a ++ b) ++ ('.' :: c) := by
  have hmem : ∀ x ∈ a ++ ('.' :: (b ++ (',' :: c))),
      x.isDigit = true ∨ x = '.' ∨ x = ',' := by
    intro x hx
    rcases List.mem_append.mp hx with hx | hx
    · exact Or.inl (ha x hx)
    · rcases List.mem_cons.mp hx with rfl | hx
      · exact Or.inr (Or.inl rfl)
      · rcases List.mem_append.mp hx with hx | hx
        · exact Or.inl (hb x hx)
        · rcases List.mem_cons.mp hx with rfl | hx
          · exact Or.inr (Or.inr rfl)
          · exact Or.inl (hc x hx)
  have hmem2 : ∀ x ∈ a ++ (b ++ ('.' :: c)), x.isDigit = true ∨ x = '.' := by
    intro x hx
    rcases List.mem_append.mp hx with hx | hx
    · exact Or.inl (ha x hx)
    · rcases List.mem_append.mp hx with hx | hx
      · exact Or.inl (hb x hx)
      · rcases List.mem_cons.mp hx with rfl | hx
        · exact Or.inr rfl
        · exact Or.inl (hc x hx)
  have E1 : (a ++ ('.' :: (b ++ (',' :: c)))).filter
      (fun ch => ¬ currencyGlyphs.contains ch) = a ++ ('.' :: (b ++ (',' :: c))) := by
    apply List.filter_eq_self.mpr
    intro x hx
    rcases hmem x hx with hd | rfl | rfl
    · simpa using digit_not_glyph hd
    · decide
    · decide
  have E2 : pyStripL (a ++ ('.' :: (b ++ (',' :: c)))) = a ++ ('.' :: (b ++ (',' :: c))) := by
    apply pyStripL_eq_self
    intro x hx
    rcases hmem x hx with hd | rfl | rfl
    · exact digit_not_space hd
    · decide
    · decide
  have E3 : (a ++ ('.' :: (b ++ (',' :: c)))).filter (· ≠ ' ')
      = a ++ ('.' :: (b ++ (',' :: c))) := by
    apply List.filter_eq_self.mpr
    intro x hx
    rcases hmem x hx with hd | rfl | rfl
    · simp [digit_ne ' ' hd (by decide)]
    · decide
    · decide
  have E4 : (a ++ ('.' :: (b ++ (',' :: c)))).contains ',' = true := by
    have hm : ',' ∈ a ++ ('.' :: (b ++ (',' :: c))) :=
      List.mem_append.mpr (Or.inr (List.mem_cons.mpr (Or.inr
        (List.mem_append.mpr (Or.inr (List.mem_cons_self ',' c))))))
    simpa using hm
  have E5 : (a ++ ('.' :: (b ++ (',' :: c)))).contains '.' = true := by
    have hm : '.' ∈ a ++ ('.' :: (b ++ (',' :: c))) :=
      List.mem_append.mpr (Or.inr (List.mem_cons_self '.' _))
    simpa using hm
  have R0 : rfindC '.' (b ++ (',' :: c)) = -1 := by
    apply rfindC_neg_of_not_mem
    intro x hx
    rcases List.mem_append.mp hx with hx | hx
    · exact digit_ne '.' (hb x hx) (by decide)
    · rcases List.mem_cons.mp hx with rfl | hx
      · decide
      · exact digit_ne '.' (hc x hx) (by decide)
  have R1 : rfindC '.' (a ++ ('.' :: (b ++ (',' :: c)))) = (a.length : Int) := by
    rw [rfindC_append, rfindC_cons_self_none _ _ R0,
        if_pos (show (0 : Int) ≥ 0 by decide)]
    ring
  have R2a : rfindC ',' (',' :: c) = 0 :=
    rfindC_cons_self_none _ _
      (rfindC_neg_of_not_mem _ _ (fun x hx => digit_ne ',' (hc x hx) (by decide)))
  have R2b : rfindC ',' (b ++ (',' :: c)) = (b.length : Int) := by
    rw [rfindC_append, R2a, if_pos (show (0 : Int) ≥ 0 by decide)]
    ring
  have R2c : rfindC ',' ('.' :: (b ++ (',' :: c))) = (b.length : Int) + 1 := by
    rw [rfindC_cons_of_tail _ _ _ (by rw [R2b]; omega), R2b]
  have R2 : rfindC ',' (a ++ ('.' :: (b ++ (',' :: c))))
      = (a.length : Int) + ((b.length : Int) + 1) := by
    rw [rfindC_append, R2c, if_pos (show (b.length : Int) + 1 ≥ 0 by omega)]
  have FA : a.filter (· ≠ '.') = a :=
    List.filter_eq_self.mpr (fun x hx => by simp [digit_ne '.' (ha x hx) (by decide)])
  have FB : b.filter (· ≠ '.') = b :=
    List.filter_eq_self.mpr (fun x hx => by simp [digit_ne '.' (hb x hx) (by decide)])
  have FC : c.filter (· ≠ '.') = c :=
    List.filter_eq_self.mpr (fun x hx => by simp [digit_ne '.' (hc x hx) (by decide)])
  have E6 : (a ++ ('.' :: (b ++ (',' :: c)))).filter (· ≠ '.') = a ++ (b ++ (',' :: c)) := by
    rw [List.filter_append, FA, List.filter_cons_of_neg (by decide),
        List.filter_append, FB, List.filter_cons_of_pos (by decide), FC]
  have E7 : (a ++ (b ++ (',' :: c))).map (fun ch => if ch = ',' then '.' else ch)
      = a ++ (b ++ ('.' :: c)) := by
    rw [List.map_append, List.map_append,
        map_eq_self_of _ a (fun x hx => if_neg (digit_ne ',' (ha x hx) (by decide))),
        map_eq_self_of _ b (fun x hx => if_neg (digit_ne ',' (hb x hx) (by decide))),
        List.map_cons, if_pos rfl,
        map_eq_self_of _ c (fun x hx => if_neg (digit_ne ',' (hc x hx) (by decide)))]
  have E8 : (a ++ (b ++ ('.' :: c))).filter (fun ch => ch.isDigit ∨ ch = '.' ∨ ch = '-')
      = a ++ (b ++ ('.' :: c)) := by
    apply List.filter_eq_self.mpr
    intro x hx
    rcases hmem2 x hx with hd | rfl
    · simp [hd]
    · decide
  have CA : a.count '.' = 0 :=
    List.count_eq_zero.mpr (fun hm => absurd (ha '.' hm) (by decide))
  have CB : b.count '.' = 0 :=
    List.count_eq_zero.mpr (fun hm => absurd (hb '.' hm) (by decide))
  have CC : c.count '.' = 0 :=
    List.count_eq_zero.mpr (fun hm => absurd (hc '.' hm) (by decide))
  have E9 : (a ++ (b ++ ('.' :: c))).count '.' = 1 := by
    rw [List.count_append, List.count_append, CA, CB, List.count_cons_self, CC]
  have E10 : ((a ++ (b ++ ('.' :: c))).drop 1).contains '-' = false := by
    have hm : '-' ∉ (a ++ (b ++ ('.' :: c))).drop 1 := by
      intro hm
      rcases hmem2 '-' (List.mem_of_mem_drop hm) with hd | h1
      · exact absurd hd (by decide)
      · exact absurd h1 (by decide)
    simpa using hm
  unfold cleanNumericL
  dsimp only
  rw [if_pos rfl, E1, E2, E3, if_pos (And.intro E4 E5), R1, R2,
      if_neg (show ¬ ((a.length : Int) > (a.length : Int) + ((b.length : Int) + 1)) by omega),
      E6, E7, E8, E9,
      if_neg (show ¬ (1 > 1) by decide),
      if_neg (show ¬ (((a ++ (b ++ ('.' :: c))).drop 1).contains '-' = true) by
        rw [E10]; exact Bool.false_ne_true)]
  simp only [← List.append_assoc]
  rw [if_neg (final_guard_of_shape (a ++ b) c
      (fun x hx => (List.mem_append.mp hx).elim (ha x) (hb x)) hc
      (by
        rcases hne with h | h | h
        · exact Or.inl (fun hh => h (List.append_eq_nil.mp hh).1)
        · exact Or.inl (fun hh => h (List.append_eq_nil.mp hh).2)
        · exact Or.inr h))]

end Koinly

namespace Koinly

theorem cleanNumeric_both_dot_last (a b c : List Char)
    (ha : ∀ x ∈ a, x.isDigit = true) (hb : ∀ x ∈ b, x.isDigit = true)
    (hc : ∀ x ∈ c, x.isDigit = true) (hne : a ≠ [] ∨ b ≠ [] ∨ c ≠ []) :
    cleanNumericL (a ++ (',' :: (b ++ ('.' :: c)))) true = (a ++ b) ++ ('.' :: c) := by
  have hmem : ∀ x ∈ a ++ (',' :: (b ++ ('.' :: c))),
      x.isDigit = true ∨ x = '.' ∨ x = ',' := by
    intro x hx
    rcases List.mem_append.mp hx with hx | hx
    · exact Or.inl (ha x hx)
    · rcases List.mem_cons.mp hx with rfl | hx
      · exact Or.inr (Or.inr rfl)
      · rcases List.mem_append.mp hx with hx | hx
        · exact Or.inl (hb x hx)
        · rcases List.mem_cons.mp hx with rfl | hx
          · exact Or.inr (Or.inl rfl)
          · exact Or.inl (hc x hx)
  have hmem2 : ∀ x ∈ a ++ (b ++ ('.' :: c)), x.isDigit = true ∨ x = '.' := by
    intro x hx
    rcases List.mem_append.mp hx with hx | hx
    · exact Or.inl (ha x hx)
    · rcases List.mem_append.mp hx with hx | hx
      · exact Or.inl (hb x hx)
      · rcases List.mem_cons.mp hx with rfl | hx
        · exact Or.inr rfl
        · exact Or.inl (hc x hx)
  have E1 : (a ++ (',' :: (b ++ ('.' :: c)))).filter
      (fun ch => ¬ currencyGlyphs.contains ch) = a ++ (',' :: (b ++ ('.' :: c))) := by
    apply List.filter_eq_self.mpr
    intro x hx
    rcases hmem x hx with hd | rfl | rfl
    · simpa using digit_not_glyph hd
    · decide
    · decide
  have E2 : pyStripL (a ++ (',' :: (b ++ ('.' :: c)))) = a ++ (',' :: (b ++ ('.' :: c))) := by
    apply pyStripL_eq_self
    intro x hx
    rcases hmem x hx with hd | rfl | rfl
    · exact digit_not_space hd
    · decide
    · decide
  have E3 : (a ++ (',' :: (b ++ ('.' :: c)))).filter (· ≠ ' ')
      = a ++ (',' :: (b ++ ('.' :: c))) := by
    apply List.filter_eq_self.mpr
    intro x hx
    rcases hmem x hx with hd | rfl | rfl
    · simp [digit_ne ' ' hd (by decide)]
    · decide
    · decide
  have E4 : (a ++ (',' :: (b ++ ('.' :: c)))).contains ',' = true := by
    have hm : ',' ∈ a ++ (',' :: (b ++ ('.' :: c))) :=
      List.mem_append.mpr (Or.inr (List.mem_cons_self ',' _))
    simpa using hm
  have E5 : (a ++ (',' :: (b ++ ('.' :: c)))).contains '.' = true := by
    have hm : '.' ∈ a ++ (',' :: (b ++ ('.' :: c))) :=
      List.mem_append.mpr (Or.inr (List.mem_cons.mpr (Or.inr
        (List.mem_append.mpr (Or.inr (List.mem_cons_self '.' c))))))
    simpa using hm
  have R0 : rfindC ',' (b ++ ('.' :: c)) = -1 := by
    apply rfindC_neg_of_not_mem
    intro x hx
    rcases List.mem_append.mp hx with hx | hx
    · exact digit_ne ',' (hb x hx) (by decide)
    · rcases List.mem_cons.mp hx with rfl | hx
      · decide
      · exact digit_ne ',' (hc x hx) (by decide)
  have R1 : rfindC ',' (a ++ (',' :: (b ++ ('.' :: c)))) = (a.length : Int) := by
    rw [rfindC_append, rfindC_cons_self_none _ _ R0,
        if_pos (show (0 : Int) ≥ 0 by decide)]
    ring
  have R2a : rfindC '.' ('.' :: c) = 0 :=
    rfindC_cons_self_none _ _
      (rfindC_neg_of_not_mem _ _ (fun x hx => digit_ne '.' (hc x hx) (by decide)))
  have R2b : rfindC '.' (b ++ ('.' :: c)) = (b.length : Int) := by
    rw [rfindC_append, R2a, if_pos (show (0 : Int) ≥ 0 by decide)]
    ring
  have R2c : rfindC '.' (',' :: (b ++ ('.' :: c))) = (b.length : Int) + 1 := by
    rw [rfindC_cons_of_tail _ _ _ (by rw [R2b]; omega), R2b]
  have R2 : rfindC '.' (a ++ (',' :: (b ++ ('.' :: c))))
      = (a.length : Int) + ((b.length : Int) + 1) := by
    rw [rfindC_append, R2c, if_pos (show (b.length : Int) + 1 ≥ 0 by omega)]
  have FA : a.filter (· ≠ ',') = a :=
    List.filter_eq_self.mpr (fun x hx => by simp [digit_ne ',' (ha x hx) (by decide)])
  have FB : b.filter (· ≠ ',') = b :=
    List.filter_eq_self.mpr (fun x hx => by simp [digit_ne ',' (hb x hx) (by decide)])
  have FC : c.filter (· ≠ ',') = c :=
    List.filter_eq_self.mpr (fun x hx => by simp [digit_ne ',' (hc x hx) (by decide)])
  have E6 : (a ++ (',' :: (b ++ ('.' :: c)))).filter (· ≠ ',') = a ++ (b ++ ('.' :: c)) := by
    rw [List.filter_append, FA, List.filter_cons_of_neg (by decide),
        List.filter_append, FB, List.filter_cons_of_pos (by decide), FC]
  have E8 : (a ++ (b ++ ('.' :: c))).filter (fun ch => ch.isDigit ∨ ch = '.' ∨ ch = '-')
      = a ++ (b ++ ('.' :: c)) := by
    apply List.filter_eq_self.mpr
    intro x hx
    rcases hmem2 x hx with hd | rfl
    · simp [hd]
    · decide
  have CA : a.count '.' = 0 :=
    List.count_eq_zero.mpr (fun hm => absurd (ha '.' hm) (by decide))
  have CB : b.count '.' = 0 :=
    List.count_eq_zero.mpr (fun hm => absurd (hb '.' hm) (by decide))
  have CC : c.count '.' = 0 :=
    List.count_eq_zero.mpr (fun hm => absurd (hc '.' hm) (by decide))
  have E9 : (a ++ (b ++ ('.' :: c))).count '.' = 1 := by
    rw [List.count_append, List.count_append, CA, CB, List.count_cons_self, CC]
  have E10 : ((a ++ (b ++ ('.' :: c))).drop 1).contains '-' = false := by
    have hm : '-' ∉ (a ++ (b ++ ('.' :: c))).drop 1 := by
      intro hm
      rcases hmem2 '-' (List.mem_of_mem_drop hm) with hd | h1
      · exact absurd hd (by decide)
      · exact absurd h1 (by decide)
    simpa using hm
  unfold cleanNumericL
  dsimp only
  rw [if_pos rfl, E1, E2, E3, if_pos (And.intro E4 E5), R1, R2,
      if_pos (show (a.length : Int) + ((b.length : Int) + 1) > (a.length : Int) by omega),
      E6, E8, E9,
      if_neg (show ¬ (1 > 1) by decide),
      if_neg (show ¬ (((a ++ (b ++ ('.' :: c))).drop 1).contains '-' = true) by
        rw [E10]; exact Bool.false_ne_true)]
  simp only [← List.append_assoc]
  rw [if_neg (final_guard_of_shape (a ++ b) c
      (fun x hx => (List.mem_append.mp hx).elim (ha x) (hb x)) hc
      (by
        rcases hne with h | h | h
        · exact Or.inl (fun hh => h (List.append_eq_nil.mp hh).1)
        · exact Or.inl (fun hh => h (List.append_eq_nil.mp hh).2)
        · exact Or.inr h))]

end Koinly

namespace Koinly

theorem cleanNumeric_comma_only (a b : List Char)
    (ha : ∀ x ∈ a, x.isDigit = true) (hb : ∀ x ∈ b, x.isDigit = true)
    (hne : a ≠ [] ∨ b ≠ []) :
    cleanNumericL (a ++ (',' :: b)) true = a ++ ('.' :: b) := by
  have hmem : ∀ x ∈ a ++ (',' :: b), x.isDigit = true ∨ x = ',' := by
    intro x hx
    rcases List.mem_append.mp hx with hx | hx
    · exact Or.inl (ha x hx)
    · rcases List.mem_cons.mp hx with rfl | hx
      · exact Or.inr rfl
      · exact Or.inl (hb x hx)
  have hmem2 : ∀ x ∈ a ++ ('.' :: b), x.isDigit = true ∨ x = '.' := by
    intro x hx
    rcases List.mem_append.mp hx with hx | hx
    · exact Or.inl (ha x hx)
    · rcases List.mem_cons.mp hx with rfl | hx
      · exact Or.inr rfl
      · exact Or.inl (hb x hx)
  have E1 : (a ++ (',' :: b)).filter
      (fun ch => ¬ currencyGlyphs.contains ch) = a ++ (',' :: b) := by
    apply List.filter_eq_self.mpr
    intro x hx
    rcases hmem x hx with hd | rfl
    · simpa using digit_not_glyph hd
    · decide
  have E2 : pyStripL (a ++ (',' :: b)) = a ++ (',' :: b) := by
    apply pyStripL_eq_self
    intro x hx
    rcases hmem x hx with hd | rfl
    · exact digit_not_space hd
    · decide
  have E3 : (a ++ (',' :: b)).filter (· ≠ ' ') = a ++ (',' :: b) := by
    apply List.filter_eq_self.mpr
    intro x hx
    rcases hmem x hx with hd | rfl
    · simp [digit_ne ' ' hd (by decide)]
    · decide
  have E4 : (a ++ (',' :: b)).contains ',' = true := by
    have hm : ',' ∈ a ++ (',' :: b) :=
      List.mem_append.mpr (Or.inr (List.mem_cons_self ',' b))
    simpa using hm
  have E5 : (a ++ (',' :: b)).contains '.' = false := by
    have hm : '.' ∉ a ++ (',' :: b) := by
      intro hm
      rcases hmem '.' hm with hd | h1
      · exact absurd hd (by decide)
      · exact absurd h1 (by decide)
    simpa using hm
  have E7 : (a ++ (',' :: b)).map (fun ch => if ch = ',' then '.' else ch)
      = a ++ ('.' :: b) := by
    rw [List.map_append,
        map_eq_self_of _ a (fun x hx => if_neg (digit_ne ',' (ha x hx) (by decide))),
        List.map_cons, if_pos rfl,
        map_eq_self_of _ b (fun x hx => if_neg (digit_ne ',' (hb x hx) (by decide)))]
  have E8 : (a ++ ('.' :: b)).filter (fun ch => ch.isDigit ∨ ch = '.' ∨ ch = '-')
      = a ++ ('.' :: b) := by
    apply List.filter_eq_self.mpr
    intro x hx
    rcases hmem2 x hx with hd | rfl
    · simp [hd]
    · decide
  have CA : a.count '.' = 0 :=
    List.count_eq_zero.mpr (fun hm => absurd (ha '.' hm) (by decide))
  have CB : b.count '.' = 0 :=
    List.count_eq_zero.mpr (fun hm => absurd (hb '.' hm) (by decide))
  have E9 : (a ++ ('.' :: b)).count '.' = 1 := by
    rw [List.count_append, CA, List.count_cons_self, CB]
  have E10 : ((a ++ ('.' :: b)).drop 1).contains '-' = false := by
    have hm : '-' ∉ (a ++ ('.' :: b)).drop 1 := by
      intro hm
      rcases hmem2 '-' (List.mem_of_mem_drop hm) with hd | h1
      · exact absurd hd (by decide)
      · exact absurd h1 (by decide)
    simpa using hm
  unfold cleanNumericL
  dsimp only
  rw [if_pos rfl, E1, E2, E3,
      if_neg (show ¬ ((a ++ (',' :: b)).contains ',' = true
          ∧ (a ++ (',' :: b)).contains '.' = true) from
        fun hand => absurd hand.2 (by rw [E5]; exact Bool.false_ne_true)),
      if_pos E4, E7, E8, E9,
      if_neg (show ¬ (1 > 1) by decide),
      if_neg (show ¬ (((a ++ ('.' :: b)).drop 1).contains '-' = true) by
        rw [E10]; exact Bool.false_ne_true),
      if_neg (final_guard_of_shape a b ha hb hne)]

end Koinly

namespace Koinly

/-- C3: the numeric normalizer resolves the decimal separator positionally.
For digit runs `a`, `b`, `c` (not all empty): when both `.` and `,` appear,
the one occurring last in the token is the decimal separator — `a.b,c`
normalizes to `ab.c` and `a,b.c` also normalizes to `ab.c` (in particular
"1.234,56" and "1,234.56" both normalize to "1234.56" and convert to
1234.56); when only `,` appears it is the decimal separator (`a,b` →
`a.b`); and an empty token or a bare separator or sign normalizes to
"0". -/
theorem decimal_separator_resolution (a b c : List Char)
    (ha : ∀ x ∈ a, x.isDigit = true) (hb : ∀ x ∈ b, x.isDigit = true)
    (hc : ∀ x ∈ c, x.isDigit = true)
    (hne : a ≠ [] ∨ b ≠ [] ∨ c ≠ []) :
    clean_numeric_str ⟨a ++ ('.' :: (b ++ (',' :: c)))⟩ = ⟨(a ++ b) ++ ('.' :: c)⟩
    ∧ clean_numeric_str ⟨a ++ (',' :: (b ++ ('.' :: c)))⟩ = ⟨(a ++ b) ++ ('.' :: c)⟩
    ∧ ((a ≠ [] ∨ b ≠ []) → clean_numeric_str ⟨a ++ (',' :: b)⟩ = ⟨a ++ ('.' :: b)⟩)
    ∧ clean_numeric_str "" = "0"
    ∧ clean_numeric_str "." = "0"
    ∧ clean_numeric_str "," = "0"
    ∧ clean_numeric_str "-" = "0"
    ∧ clean_numeric_str "1.234,56" = "1234.56"
    ∧ clean_numeric_str "1,234.56" = "1234.56"
    ∧ pyFloat (clean_numeric_str "1.234,56") = some (123456 / 100 : ℚ)
    ∧ pyFloat (clean_numeric_str "1,234.56") = some (123456 / 100 : ℚ) := by
  refine ⟨?_, ?_, ?_, by decide, by decide, by decide, by decide,
    by decide, by decide, by decide, by decide⟩
  · exact congrArg String.mk (cleanNumeric_both_comma_last a b c ha hb hc hne)
  · exact congrArg String.mk (cleanNumeric_both_dot_last a b c ha hb hc hne)
  · intro hne2
    exact congrArg String.mk (cleanNumeric_comma_only a b ha hb hne2)

theorem decimal_separator_resolution_witness :
    (∀ x ∈ ['1'], x.isDigit = true)
    ∧ (∀ x ∈ ['2', '3', '4'], x.isDigit = true)
    ∧ (∀ x ∈ ['5', '6'], x.isDigit = true)
    ∧ clean_numeric_str ⟨['1'] ++ ('.' :: (['2', '3', '4'] ++ (',' :: ['5', '6'])))⟩
        = ⟨(['1'] ++ ['2', '3', '4']) ++ ('.' :: ['5', '6'])⟩ :=
  ⟨by decide, by decide, by decide,
   (decimal_separator_resolution ['1'] ['2', '3', '4'] ['5', '6']
     (by decide) (by decide) (by decide) (Or.inl (by decide))).1⟩

end Koinly
